import Mathlib

/-!
A formal model of the anonymous-confession bot found in
`src/confession_bot.py` and `src/main_confession_bot.py`, together with
proofs about its submission lifecycle, vote bookkeeping, batch approval,
deletion, and load-time snapshot repair.

Modelling conventions, fixed once for the whole file:

* A Python `dict` is an insertion-ordered association list (CPython
  guarantees insertion order).  `alookup`, `aset` and `aerase` mirror
  `d[k]` / `d.get(k)`, `d[k] = v`, and `del d[k]` respectively.
* Machine-independent Python integers are `Int`.
* `save_store()` writes the whole store to disk; operations below record
  each snapshot they write in a `saves : List Store` field (or a
  `saved : Bool` flag), so persistence behaviour is observable.
* Calls into the Telegram transport (the external Publisher) are the only
  failure sources; their outcomes are passed in as parameters:
  a `Bool` for fire-and-forget sends, an `Option Int` for sends whose
  `message_id` the code stores.
* The two source files are near-duplicate revisions.  Operations whose
  code is identical in both files are defined once at top level;
  operations that differ are defined in the namespaces `ConfessionBot`
  (for `src/confession_bot.py`) and `MainConfessionBot`
  (for `src/main_confession_bot.py`).
-/

/-- First-match lookup in an association list, Python `d.get(k)`. -/
def alookup {κ α : Type} [DecidableEq κ] (k : κ) : List (κ × α) → Option α
  | [] => Option.none
  | (k', v) :: t => if k' = k then some v else alookup k t

/-- Python `d[k] = v`: replace the value of an existing key in place,
keeping the original key object and position, else append a new binding. -/
def aset {κ α : Type} [DecidableEq κ] (k : κ) (v : α) (l : List (κ × α)) : List (κ × α) :=
  if l.any (fun p => decide (p.1 = k)) then
    l.map (fun p => if p.1 = k then (p.1, v) else p)
  else l ++ [(k, v)]

/-- Python `del d[k]` / `d.pop(k)`: drop the first binding of `k`
(a Python dict holds at most one). -/
def aerase {κ α : Type} [DecidableEq κ] (k : κ) : List (κ × α) → List (κ × α)
  | [] => []
  | (k', v) :: t => if k' = k then t else (k', v) :: aerase k t

/-- A pending confession, the value stored in `store["pending"]`
(`confession_bot.py:170-175`). -/
structure PendingItem where
  id : Int
  text : String
  from_user : Int
  user_alias : String
deriving DecidableEq, Repr

/-- A comment on a posted confession, an element of a posted item's
`replies` list (`confession_bot.py:377-383`).  `voters` maps a voter's
user id (stringified) to the raw kind string taken from the callback. -/
structure Reply where
  reply_id : Int
  text : String
  user_alias : String
  approved_time : String
  voters : List (String × String)
deriving DecidableEq, Repr

/-- A posted confession, the value stored in `store["posted"]`
(`confession_bot.py:669-675`). -/
structure PostedConf where
  text : String
  user_alias : String
  post_time : String
  replies : List Reply
  channel_message_id : Option Int
deriving DecidableEq, Repr

/-- The global `store` dictionary (`confession_bot.py:37`). -/
structure Store where
  next_id : Int
  pending : List (String × PendingItem)
  posted : List (String × PostedConf)
  user_profiles : List (String × String)
deriving DecidableEq, Repr

/-- The freshly-initialized store `{"next_id": 1, "pending": {}, "posted": {},
"user_profiles": {}}` (`confession_bot.py:37`). -/
def initialStore : Store := ⟨1, [], [], []⟩

/-- `get_user_alias` (`confession_bot.py:109-112`): the stored nickname or
the default "Anonymous". -/
def get_user_alias (s : Store) (user_id : Int) : String :=
  (alookup (toString user_id) s.user_profiles).getD "Anonymous"

/-- Outcome reported to the submitter by `submit_pending_confession`. -/
inductive SubmitOutcome
  | received (conf_id : Int)
  | adminNotifyFailed (conf_id : Int)
deriving DecidableEq, Repr

/-- Result of `submit_pending_confession`: final store, the snapshots
written by `save_store()`, and the user-visible outcome. -/
structure SubmitResult where
  store : Store
  saves : List Store
  outcome : SubmitOutcome
deriving DecidableEq, Repr

/-- `submit_pending_confession` (`confession_bot.py:158-208`, identical in
`main_confession_bot.py:145-190`): allocate `next_id`, store the pending
item under key `"p" + id`, persist, then notify the admin group.
`notifyOk` is the outcome of the Telegram send; on failure the counter is
decremented, the pending entry deleted, and the store persisted again. -/
def submit_pending_confession (s : Store) (user_id : Int) (text : String)
    (notifyOk : Bool) : SubmitResult :=
  let conf_id := s.next_id
  let pending_id := "p" ++ toString conf_id
  let user_alias := get_user_alias s user_id
  let s1 : Store := { s with
    next_id := s.next_id + 1,
    pending := aset pending_id ⟨conf_id, text, user_id, user_alias⟩ s.pending }
  if notifyOk then
    { store := s1, saves := [s1], outcome := .received conf_id }
  else
    let s2 : Store := { s1 with
      next_id := s1.next_id - 1,
      pending := aerase pending_id s1.pending }
    { store := s2, saves := [s1, s2], outcome := .adminNotifyFailed conf_id }

/-- Outcome of the `vote_comment` callback. -/
inductive VoteOutcome
  | confessionNotFound
  | commentNotFound
  | alreadyVoted (kind : String)
  | voteChanged (kind : String)
  | voteCounted (kind : String)
deriving DecidableEq, Repr

/-- Result of the `vote_comment` callback: final store, whether
`save_store()` ran, and the answer text shown to the voter. -/
structure VoteResult where
  store : Store
  saved : Bool
  outcome : VoteOutcome
deriving DecidableEq, Repr

/-- Replace the first reply whose `reply_id` matches (the Python code
mutates the reply object found by a linear scan, `confession_bot.py:482-486`). -/
def replaceReply (reply_id : Int) (r' : Reply) : List Reply → List Reply
  | [] => []
  | r :: t => if r.reply_id = reply_id then r' :: t else r :: replaceReply reply_id r' t

/-- The `vote_comment` branch of `handle_callbacks`
(`confession_bot.py:459-532`, identical logic in
`main_confession_bot.py:437-509`).  `user_id` is the stringified voter id,
`vote_type` the raw kind string from the callback data.  A re-cast of the
stored kind answers early without writing; otherwise the single map entry
is overwritten and the store persisted. -/
def vote_comment_callback (s : Store) (conf_id reply_id : Int)
    (user_id : String) (vote_type : String) : VoteResult :=
  let conf_key := toString conf_id
  match alookup conf_key s.posted with
  | Option.none => ⟨s, false, .confessionNotFound⟩
  | some conf =>
    match conf.replies.find? (fun r => decide (r.reply_id = reply_id)) with
    | Option.none => ⟨s, false, .commentNotFound⟩
    | some reply =>
      let voters := reply.voters
      let previous := alookup user_id voters
      if previous = some vote_type then
        ⟨s, false, .alreadyVoted vote_type⟩
      else
        let voters' := aset user_id vote_type voters
        let reply' : Reply := { reply with voters := voters' }
        let conf' : PostedConf := { conf with
          replies := replaceReply reply_id reply' conf.replies }
        let s' : Store := { s with posted := aset conf_key conf' s.posted }
        -- Python truthiness: `if previous_vote:` treats None and "" alike.
        let outcome := match previous with
          | some p => if p = "" then VoteOutcome.voteCounted vote_type
                      else VoteOutcome.voteChanged vote_type
          | Option.none => VoteOutcome.voteCounted vote_type
        ⟨s', true, outcome⟩

/-- The derived per-kind tally, `sum(1 for vote in voters.values() if vote == k)`
(`confession_bot.py:509-510`). -/
def count_kind (voters : List (String × String)) (k : String) : Nat :=
  (voters.filter (fun kv => decide (kv.2 = k))).length

/-- The reply targeted by a vote: posted-confession lookup followed by the
linear `reply_id` scan.  Used to state what a vote does to the store. -/
def find_reply (s : Store) (conf_id reply_id : Int) : Option Reply :=
  (alookup (toString conf_id) s.posted).bind
    (fun c => c.replies.find? (fun r => decide (r.reply_id = reply_id)))

/-- Outcome of the single-item `approve` / `reject` callbacks. -/
inductive AdminOutcome
  | alreadyHandled
  | rejected
  | approvedPosted (conf_id : Int) (message_id : Int)
  | postingFailed (conf_id : Int)
deriving DecidableEq, Repr

/-- Result of an admin callback: final store, snapshots written, outcome. -/
structure AdminResult where
  store : Store
  saves : List Store
  outcome : AdminOutcome
deriving DecidableEq, Repr

/-- The `reject` branch of `handle_callbacks` (`confession_bot.py:643-663`,
identical in `main_confession_bot.py:619-639`): if the key is gone the
message is annotated "Already Handled" and nothing changes; otherwise the
pending entry is deleted unconditionally and the store persisted. -/
def reject_callback (s : Store) (data_id : String) : AdminResult :=
  match alookup data_id s.pending with
  | Option.none => ⟨s, [], .alreadyHandled⟩
  | some _ =>
    let s' : Store := { s with pending := aerase data_id s.pending }
    ⟨s', [s'], .rejected⟩

/-- Phase one of `approve`: the check-and-remove against `store["pending"]`
plus insertion of the Posted entry with a null `channel_message_id` and the
first `save_store()` (`confession_bot.py:647-677`).  Returns `none` exactly
when the key is absent (the "Already Handled" case).  The publish call that
follows is an `await`, so other callbacks can run between this phase and
`approve_finish`; that interleaving point is what the race theorems use. -/
def approve_remove (s : Store) (data_id : String) (post_time : String) :
    Option (Store × PendingItem) :=
  match alookup data_id s.pending with
  | Option.none => Option.none
  | some conf =>
    let temp : PostedConf :=
      { text := conf.text, user_alias := conf.user_alias, post_time := post_time,
        replies := [], channel_message_id := Option.none }
    some ({ s with
      pending := aerase data_id s.pending,
      posted := aset (toString conf.id) temp s.posted }, conf)

/-- `store["posted"][str(conf_id)]["channel_message_id"] = sent_message.message_id`
(`confession_bot.py:699`). -/
def set_channel_message_id (s : Store) (key : String) (mid : Int) : Store :=
  match alookup key s.posted with
  | some pc => { s with posted := aset key { pc with channel_message_id := some mid } s.posted }
  | Option.none => s

namespace ConfessionBot

/-- Phase two of `approve` in `confession_bot.py:691-722`: on publish
success record the channel message id and persist; on publish failure
re-insert the pending entry, delete the Posted entry, decrement
`next_id` (line 714) and persist. -/
def approve_finish (s1 : Store) (data_id : String) (conf : PendingItem)
    (publish : Option Int) : AdminResult :=
  let key := toString conf.id
  match publish with
  | some mid =>
    let s2 := set_channel_message_id s1 key mid
    ⟨s2, [s2], .approvedPosted conf.id mid⟩
  | Option.none =>
    let s2 : Store := { s1 with
      pending := aset data_id conf s1.pending,
      posted := aerase key s1.posted,
      next_id := s1.next_id - 1 }
    ⟨s2, [s2], .postingFailed conf.id⟩

/-- The full `approve` branch of `handle_callbacks`
(`confession_bot.py:643-722`). `publish` is `some message_id` when the
channel post succeeds, `none` when it raises. -/
def approve_callback (s : Store) (data_id : String) (post_time : String)
    (publish : Option Int) : AdminResult :=
  match approve_remove s data_id post_time with
  | Option.none => ⟨s, [], .alreadyHandled⟩
  | some (s1, conf) =>
    let r := approve_finish s1 data_id conf publish
    { r with saves := s1 :: r.saves }

end ConfessionBot

namespace MainConfessionBot

/-- Phase two of `approve` in `main_confession_bot.py:665-695`: identical
to `confession_bot.py` except that the rollback leaves `next_id` alone
(line 688: "store['next_id'] is left alone to avoid reuse"). -/
def approve_finish (s1 : Store) (data_id : String) (conf : PendingItem)
    (publish : Option Int) : AdminResult :=
  let key := toString conf.id
  match publish with
  | some mid =>
    let s2 := set_channel_message_id s1 key mid
    ⟨s2, [s2], .approvedPosted conf.id mid⟩
  | Option.none =>
    let s2 : Store := { s1 with
      pending := aset data_id conf s1.pending,
      posted := aerase key s1.posted }
    ⟨s2, [s2], .postingFailed conf.id⟩

/-- The full `approve` branch of `handle_callbacks`
(`main_confession_bot.py:619-695`). -/
def approve_callback (s : Store) (data_id : String) (post_time : String)
    (publish : Option Int) : AdminResult :=
  match approve_remove s data_id post_time with
  | Option.none => ⟨s, [], .alreadyHandled⟩
  | some (s1, conf) =>
    let r := approve_finish s1 data_id conf publish
    { r with saves := s1 :: r.saves }

end MainConfessionBot

/-- Parse a list of decimal digits, Python `int(...)` on a digit string:
`none` when any character is not a digit or the string is empty. -/
def parseNatChars (cs : List Char) : Option Nat :=
  match cs with
  | [] => Option.none
  | _ =>
    cs.foldl (fun acc c =>
      acc.bind (fun n =>
        if c.isDigit then some (n * 10 + (c.toNat - '0'.toNat)) else Option.none))
      (some 0)

/-- Python `int(s)` for an optionally-negative decimal string (surrounding
whitespace, accepted by Python, never occurs in the keys this code builds). -/
def parsePyInt (s : String) : Option Int :=
  match s.data with
  | '-' :: rest => (parseNatChars rest).map (fun n => -(n : Int))
  | cs => (parseNatChars cs).map (fun n => (n : Int))

/-- The sort key `int(k[1:])` used on pending keys `"p<id>"`
(`confession_bot.py:739`).  Keys written by the code always parse; the
`getD 0` arm is unreachable for them. -/
def pendingKeyNum (k : String) : Int :=
  (parsePyInt (String.mk (k.data.drop 1))).getD 0

/-- Result of the `approve_batch` callback in `confession_bot.py`:
final store, `approved_count`, the reported remaining-queue length, and
whether the handler returned early because nothing was pending. -/
structure BatchResult where
  store : Store
  approved : Nat
  remaining : Nat
  noPending : Bool
deriving DecidableEq, Repr

namespace ConfessionBot

/-- The per-item loop of `approve_batch` (`confession_bot.py:741-782`):
pop the pending item, insert the Posted entry with a null ref, publish;
on success record the message id and continue, on failure restore the
pending entry, delete the Posted entry, and `break`.  The `none` arm of
the pending lookup cannot fire on states the handler reaches (keys are
drawn from the pending dict and each is popped once). -/
def batch_loop (publish : Int → Option Int) (post_time : String) :
    List String → Store → Nat → Store × Nat
  | [], s, approved => (s, approved)
  | k :: rest, s, approved =>
    match alookup k s.pending with
    | Option.none => batch_loop publish post_time rest s approved
    | some item =>
      let key := toString item.id
      let temp : PostedConf :=
        { text := item.text, user_alias := item.user_alias, post_time := post_time,
          replies := [], channel_message_id := Option.none }
      let s1 : Store := { s with
        pending := aerase k s.pending,
        posted := aset key temp s.posted }
      match publish item.id with
      | some mid => batch_loop publish post_time rest (set_channel_message_id s1 key mid) (approved + 1)
      | Option.none =>
        ({ s1 with
          posted := aerase key s1.posted,
          pending := aset k item s1.pending }, approved)

/-- The `approve_batch` branch of `handle_callbacks`
(`confession_bot.py:725-793`): early return when nothing is pending, else
process the first `batch_size` pending keys sorted by `int(k[1:])`
(Python's `sorted` is the unique stable sort of this total preorder, so a
stable insertion sort models it exactly), save once after the loop, and
report `approved_count` and `len(store["pending"])`. -/
def approve_batch_callback (s : Store) (batch_size : Nat)
    (publish : Int → Option Int) (post_time : String) : BatchResult :=
  if s.pending.isEmpty then ⟨s, 0, s.pending.length, true⟩
  else
    let pending_keys :=
      List.insertionSort (fun a b => pendingKeyNum a ≤ pendingKeyNum b)
        (s.pending.map Prod.fst)
    let r := batch_loop publish post_time (pending_keys.take batch_size) s 0
    ⟨r.1, r.2, r.1.pending.length, false⟩

end ConfessionBot

/-- Result of the `approve_batch` callback in `main_confession_bot.py`,
which additionally reports a `failed` count. -/
structure MainBatchResult where
  store : Store
  approved : Nat
  failed : Nat
  remaining : Nat
deriving DecidableEq, Repr

namespace MainConfessionBot

/-- The per-item loop of `approve_batch` (`main_confession_bot.py:714-754`):
like `confession_bot.py`'s loop, but a publish failure rolls the single
item back, increments `failed_count`, and the loop continues with the next
key instead of breaking.  The `if not pending_item: continue` guard is the
`none` arm. -/
def batch_loop (publish : Int → Option Int) (post_time : String) :
    List String → Store → Nat → Nat → Store × Nat × Nat
  | [], s, approved, failed => (s, approved, failed)
  | k :: rest, s, approved, failed =>
    match alookup k s.pending with
    | Option.none => batch_loop publish post_time rest s approved failed
    | some item =>
      let key := toString item.id
      let temp : PostedConf :=
        { text := item.text, user_alias := item.user_alias, post_time := post_time,
          replies := [], channel_message_id := Option.none }
      let s1 : Store := { s with
        pending := aerase k s.pending,
        posted := aset key temp s.posted }
      match publish item.id with
      | some mid =>
        batch_loop publish post_time rest (set_channel_message_id s1 key mid) (approved + 1) failed
      | Option.none =>
        batch_loop publish post_time rest
          { s1 with
            posted := aerase key s1.posted,
            pending := aset k item s1.pending }
          approved (failed + 1)

/-- The `approve_batch` branch of `handle_callbacks`
(`main_confession_bot.py:698-770`): clamp the requested count to
`MAX_BATCH_APPROVAL = 15`, take that many keys in insertion order
(`list(store["pending"].keys())[:batch_size]`, no sorting), run the loop
(which continues past failures), save once, and report approved, failed
and remaining counts. -/
def approve_batch_callback (s : Store) (n : Nat)
    (publish : Int → Option Int) (post_time : String) : MainBatchResult :=
  let batch_size := min n 15
  let pending_keys := (s.pending.map Prod.fst).take batch_size
  let r := batch_loop publish post_time pending_keys s 0 0
  ⟨r.1, r.2.1, r.2.2, r.1.pending.length⟩

end MainConfessionBot

/-- What happened to the external channel post during `/deleteconfession`. -/
inductive ChannelStatus
  | channelPostDeleted
  | channelDeleteFailed
  | noChannelMessageId
deriving DecidableEq, Repr

/-- Result of `/deleteconfession`: final store, whether the confession was
found, whether the Publisher's delete was invoked, and the channel-status
line included in the report (absent in `main_confession_bot.py`, which
reports only the local deletion). -/
structure DeleteResult where
  store : Store
  found : Bool
  publisherCalled : Bool
  channelStatus : Option ChannelStatus
deriving DecidableEq, Repr

namespace ConfessionBot

/-- `delete_confession_command` (`confession_bot.py:926-965`): if the
confession is posted, first ask the Publisher to delete the channel post
when a `channel_message_id` is recorded (`deleteOk` is that call's
outcome; its failure only changes the report), then delete the local
entry unconditionally and persist. -/
def delete_confession_command (s : Store) (conf_id : Int) (deleteOk : Bool) :
    DeleteResult :=
  let conf_key := toString conf_id
  match alookup conf_key s.posted with
  | Option.none => ⟨s, false, false, Option.none⟩
  | some conf =>
    let called := conf.channel_message_id.isSome
    let status := match conf.channel_message_id with
      | some _ => if deleteOk then ChannelStatus.channelPostDeleted
                  else ChannelStatus.channelDeleteFailed
      | Option.none => ChannelStatus.noChannelMessageId
    ⟨{ s with posted := aerase conf_key s.posted }, true, called, some status⟩

end ConfessionBot

namespace MainConfessionBot

/-- `delete_confession_command` (`main_confession_bot.py:922-945`): pops
the local entry and persists; it never contacts the Publisher about the
channel post and its report carries no channel status. -/
def delete_confession_command (s : Store) (conf_id : Int) : DeleteResult :=
  let conf_key := toString conf_id
  match alookup conf_key s.posted with
  | Option.none => ⟨s, false, false, Option.none⟩
  | some _ =>
    ⟨{ s with posted := aerase conf_key s.posted }, true, false, Option.none⟩

end MainConfessionBot

/-- Per-user ephemeral session state kept in `context.user_data[user_id]`:
`{'state': 'awaiting_reply', 'conf_id': ...}` or
`{'state': 'awaiting_feedback'}`.  Absence of an entry is the idle mode. -/
inductive SessionState
  | awaitingReply (conf_id : Int)
  | awaitingFeedback
deriving DecidableEq, Repr

/-- The user-visible outcome of `handle_confession`. -/
inductive TextOutcome
  | textOnlyPrompt
  | commentPosted (conf_id reply_id : Int)
  | commentTargetGone
  | feedbackSent
  | feedbackSendFailed
  | confessionSubmitted (o : SubmitOutcome)
deriving DecidableEq, Repr

/-- Result of `handle_confession`: final store, final session table,
snapshots written, and the reply sent to the user. -/
structure TextResult where
  store : Store
  sessions : List (Int × SessionState)
  saves : List Store
  outcome : TextOutcome
deriving DecidableEq, Repr

/-- Python `str.strip()` whitespace test for the characters that can occur
in a Telegram text message. -/
def isPySpace (c : Char) : Bool :=
  c = ' ' || c = '\t' || c = '\n' || c = '\r' || c = '\x0b' || c = '\x0c'

/-- Python `s.strip()`: drop leading and trailing whitespace. -/
def pyStrip (s : String) : String :=
  String.mk (((s.data.dropWhile isPySpace).reverse.dropWhile isPySpace).reverse)

/-- `handle_confession` (`confession_bot.py:346-414`; the blank-text guard
cited for the claims is identical in `main_confession_bot.py:325-333`).
Strips the incoming text; a blank result is answered with "Please send
text only" before the session table is consulted.  Otherwise the message
is routed by the session mode: an awaiting-reply session appends an
auto-approved comment with a fresh id from the shared counter, an
awaiting-feedback session forwards to the admin group (`feedbackOk` is
that send's outcome), and no session falls through to
`submit_pending_confession`. -/
def handle_confession (s : Store) (sessions : List (Int × SessionState))
    (user_id : Int) (raw : String) (msg_time : String)
    (notifyOk feedbackOk : Bool) : TextResult :=
  let text := pyStrip raw
  if text = "" then ⟨s, sessions, [], .textOnlyPrompt⟩
  else
    match alookup user_id sessions with
    | some (.awaitingReply conf_id) =>
      let sessions' := aerase user_id sessions
      let conf_key := toString conf_id
      match alookup conf_key s.posted with
      | Option.none => ⟨s, sessions', [], .commentTargetGone⟩
      | some conf =>
        let reply_id := s.next_id
        let newReply : Reply :=
          { reply_id := reply_id, text := text, user_alias := get_user_alias s user_id,
            approved_time := msg_time, voters := [] }
        let conf' : PostedConf := { conf with replies := conf.replies ++ [newReply] }
        let s' : Store := { s with
          next_id := s.next_id + 1,
          posted := aset conf_key conf' s.posted }
        ⟨s', sessions', [s'], .commentPosted conf_id reply_id⟩
    | some .awaitingFeedback =>
      let sessions' := aerase user_id sessions
      ⟨s, sessions', [], if feedbackOk then .feedbackSent else .feedbackSendFailed⟩
    | Option.none =>
      let r := submit_pending_confession s user_id text notifyOk
      ⟨r.store, sessions, r.saves, .confessionSubmitted r.outcome⟩

/-!
Dynamic model of the JSON snapshot and of `load_store`.

`load_store` (`confession_bot.py:39-77`, condensed but semantically
identical in `main_confession_bot.py:54-78`) works on untyped parsed JSON,
and the only exception it catches is `json.JSONDecodeError`.  To reason
about what it does on arbitrary snapshot contents we model Python runtime
values directly.  Dictionary keys reachable here are the hashable
JSON-derived values (strings, ints, bools, None); lists and dicts are
unhashable and raise `TypeError` when used as keys.
-/

/-- A hashable Python value usable as a dict key. -/
inductive PyKey
  | strK (s : String)
  | intK (n : Int)
  | boolK (b : Bool)
  | noneK
deriving DecidableEq, Repr

/-- An untyped Python runtime value as produced by `json.load` and mutated
by `load_store`'s repair loop. -/
inductive PyVal
  | noneV
  | boolV (b : Bool)
  | intV (n : Int)
  | strV (s : String)
  | listV (xs : List PyVal)
  | dictV (kvs : List (PyKey × PyVal))
deriving Repr

/-- The exception class an uncaught Python error belongs to. -/
inductive PyErr
  | typeError
  | valueError
  | keyError
  | indexError
deriving DecidableEq, Repr

/-- A dict key rendered back as a value (what iterating a dict yields). -/
def PyKey.toVal : PyKey → PyVal
  | .strK s => .strV s
  | .intK n => .intV n
  | .boolK b => .boolV b
  | .noneK => .noneV

/-- Hashing a value into a dict key: `TypeError` for lists and dicts. -/
def toKey : PyVal → Except PyErr PyKey
  | .strV s => .ok (.strK s)
  | .intV n => .ok (.intK n)
  | .boolV b => .ok (.boolK b)
  | .noneV => .ok .noneK
  | _ => .error .typeError

/-- Substring test on char lists, Python `t in s` for strings. -/
def subseqChars (t s : List Char) : Bool :=
  (List.range (s.length + 1)).any (fun i => t.isPrefixOf (s.drop i))

/-- Python string equality of a value against a string literal: only a
`str` can compare equal to a `str`. -/
def pyEqStr (v : PyVal) (t : String) : Bool :=
  match v with
  | .strV s => s = t
  | _ => false

/-- Python iteration `for x in v`: keys of a dict, elements of a list,
one-character strings of a string; everything else raises `TypeError`. -/
def pyIter : PyVal → Except PyErr (List PyVal)
  | .dictV kvs => .ok (kvs.map (fun kv => kv.1.toVal))
  | .listV xs => .ok xs
  | .strV s => .ok (s.data.map (fun c => .strV (String.mk [c])))
  | _ => .error .typeError

/-- Python `v[k]`: dict lookup (hashability check first, then `KeyError`
for a missing key), list/str indexing with negative-index wraparound,
`TypeError` otherwise. -/
def pySubscript : PyVal → PyVal → Except PyErr PyVal
  | .dictV kvs, k =>
    match toKey k with
    | .error e => .error e
    | .ok key =>
      match alookup key kvs with
      | some v => .ok v
      | Option.none => .error .keyError
  | .listV xs, .intV i =>
    let j := if i < 0 then i + xs.length else i
    if h : 0 ≤ j ∧ j.toNat < xs.length then .ok (xs.get ⟨j.toNat, h.2⟩)
    else .error .indexError
  | .listV _, _ => .error .typeError
  | .strV s, .intV i =>
    let j := if i < 0 then i + s.data.length else i
    if h : 0 ≤ j ∧ j.toNat < s.data.length then
      .ok (.strV (String.mk [s.data.get ⟨j.toNat, h.2⟩]))
    else .error .indexError
  | .strV _, _ => .error .typeError
  | _, _ => .error .typeError

/-- Python `v[k] = x`: dict insert/replace, list index assignment;
strings are immutable and everything else is unsubscriptable, `TypeError`. -/
def pySetItem : PyVal → PyVal → PyVal → Except PyErr PyVal
  | .dictV kvs, k, x =>
    match toKey k with
    | .error e => .error e
    | .ok key => .ok (.dictV (aset key x kvs))
  | .listV xs, .intV i, x =>
    let j := if i < 0 then i + xs.length else i
    if 0 ≤ j ∧ j.toNat < xs.length then .ok (.listV (xs.set j.toNat x))
    else .error .indexError
  | .listV _, _, _ => .error .typeError
  | _, _, _ => .error .typeError

/-- Python `lit in v` for the string literals this code tests: key test
for dicts, element equality for lists, substring test for strings,
`TypeError` for non-containers. -/
def pyContainsStr : PyVal → String → Except PyErr Bool
  | .dictV kvs, t => .ok (kvs.any (fun kv => decide (kv.1 = .strK t)))
  | .listV xs, t => .ok (xs.any (fun x => pyEqStr x t))
  | .strV s, t => .ok (subseqChars t.data s.data)
  | _, _ => .error .typeError

/-- Python `int(v)`: ints pass through, bools coerce, numeric strings
parse (`ValueError` otherwise), everything else raises `TypeError`. -/
def pyInt : PyVal → Except PyErr Int
  | .intV n => .ok n
  | .boolV b => .ok (if b then 1 else 0)
  | .strV s =>
    match parsePyInt (String.mk (s.data.dropWhile isPySpace |>.reverse.dropWhile isPySpace |>.reverse)) with
    | some n => .ok n
    | Option.none => .error .valueError
  | _ => .error .typeError

/-- One element of `dict.update(iterable)`: a sequence of length two,
destructured into a key-value pair.  A two-element list pairs its
elements (key must be hashable), a two-character string pairs its
characters, a two-entry dict pairs its keys; wrong lengths raise
`ValueError` and non-sequences `TypeError`, exactly as CPython does. -/
def pairOfUpdateElem : PyVal → Except PyErr (PyKey × PyVal)
  | .listV [k, v] => (toKey k).map (fun key => (key, v))
  | .listV _ => .error .valueError
  | .strV s =>
    match s.data with
    | [a, b] => .ok (.strK (String.mk [a]), .strV (String.mk [b]))
    | _ => .error .valueError
  | .dictV [(k1, _), (k2, _)] => .ok (k1, k2.toVal)
  | .dictV _ => .error .valueError
  | _ => .error .typeError

/-- Python `base.update(v)` (`store.update(loaded_data)`,
`confession_bot.py:48`): merge a dict's entries; accept an iterable of
key-value sequences; a non-empty string's one-character elements all fail
the length-two requirement; other values are not iterable. -/
def dictUpdate (base : List (PyKey × PyVal)) : PyVal → Except PyErr (List (PyKey × PyVal))
  | .dictV kvs => .ok (kvs.foldl (fun acc kv => aset kv.1 kv.2 acc) base)
  | .listV xs =>
    xs.foldlM (fun acc e => (pairOfUpdateElem e).map (fun p => aset p.1 p.2 acc)) base
  | .strV s => if s.data.isEmpty then .ok base else .error .valueError
  | _ => .error .typeError

/-- The per-reply body of the load-time repair loop
(`confession_bot.py:57-67`): backfill `reply_id` with
`int(conf_id) * 1000 + i`, backfill an empty `voters` map, backfill the
alias "Anonymous".  `int(conf_id)` is evaluated before the assignment, so
an unparsable key raises `ValueError` first. -/
def repairReply (conf_id : PyVal) (i : Nat) (reply : PyVal) : Except PyErr PyVal := do
  let hasId ← pyContainsStr reply "reply_id"
  let reply1 ←
    if hasId then pure reply
    else do
      let cid ← pyInt conf_id
      pySetItem reply (.strV "reply_id") (.intV (cid * 1000 + i))
  let hasVoters ← pyContainsStr reply1 "voters"
  let reply2 ←
    if hasVoters then pure reply1
    else pySetItem reply1 (.strV "voters") (.dictV [])
  let hasAlias ← pyContainsStr reply2 "user_alias"
  if hasAlias then pure reply2
  else pySetItem reply2 (.strV "user_alias") (.strV "Anonymous")

/-- The per-confession body of the repair loop (`confession_bot.py:52-71`):
backfill an empty `replies` list, run `repairReply` over
`enumerate(conf["replies"])`, backfill the alias "Anonymous".
In-place mutation of a reply persists only when `replies` is a list;
iterating a dict yields its (immutable) keys and iterating a string its
characters, and `repairReply` succeeds on those only when it changes
nothing, so the original value is kept for them. -/
def repairConf (conf_id : PyVal) (conf : PyVal) : Except PyErr PyVal := do
  let hasReplies ← pyContainsStr conf "replies"
  let conf1 ←
    if hasReplies then pure conf
    else pySetItem conf (.strV "replies") (.listV [])
  let replies ← pySubscript conf1 (.strV "replies")
  let elems ← pyIter replies
  let elems' ← (List.enumFrom 0 elems).mapM (fun p => repairReply conf_id p.1 p.2)
  let replies' := match replies with
    | .listV _ => PyVal.listV elems'
    | other => other
  let conf2 ← pySetItem conf1 (.strV "replies") replies'
  let hasAlias ← pyContainsStr conf2 "user_alias"
  if hasAlias then pure conf2
  else pySetItem conf2 (.strV "user_alias") (.strV "Anonymous")

/-- The whole repair pass over `store["posted"]`
(`confession_bot.py:51-71`): `for conf_id in store["posted"]` followed by
`conf = store["posted"][conf_id]` and the per-confession repair.  A dict
is visited entry by entry (each key once, its in-place mutation updating
that entry); any other value is iterated and then subscripted with the
iterated element, with in-place mutation modelled by writing the repaired
confession back to the subscripted slot. -/
def repairPostedVal : PyVal → Except PyErr PyVal
  | .dictV kvs => do
    let kvs' ← kvs.mapM (fun kv => do
      let v' ← repairConf kv.1.toVal kv.2
      pure (kv.1, v'))
    pure (.dictV kvs')
  | other => do
    let ks ← pyIter other
    ks.foldlM (fun cur k => do
      let conf ← pySubscript cur k
      let conf' ← repairConf k conf
      pySetItem cur k conf') other

/-- The four base keys `load_store` resets before merging the snapshot
(`confession_bot.py:47`), equal to the initial global store. -/
def initialStoreKvs : List (PyKey × PyVal) :=
  [(.strK "next_id", .intV 1), (.strK "pending", .dictV []),
   (.strK "posted", .dictV []), (.strK "user_profiles", .dictV [])]

/-- `load_store` (`confession_bot.py:39-77`).  The argument describes the
snapshot file: `none` when the file is missing, `some (.error ())` when
its bytes fail JSON decoding (the only exception the function catches),
and `some (.ok j)` when they decode to the value `j`.  In the first two
cases the global store keeps its freshly-initialized value.  In the third,
the decoded value is merged over the reset base keys and the repair pass
runs over `store["posted"]`; any Python error raised by those steps
escapes `load_store` uncaught and is returned as `.error`. -/
def load_store (file : Option (Except Unit PyVal)) :
    Except PyErr (List (PyKey × PyVal)) :=
  match file with
  | Option.none => .ok initialStoreKvs
  | some (.error _) => .ok initialStoreKvs
  | some (.ok j) => do
    let kvs ← dictUpdate initialStoreKvs j
    let posted ← pySubscript (.dictV kvs) (.strV "posted")
    let posted' ← repairPostedVal posted
    pure (aset (.strK "posted") posted' kvs)


/-!  Lemmas about the association-list dictionary operations. -/

theorem alookup_cons {κ α : Type} [DecidableEq κ] (k : κ) (p : κ × α) (t : List (κ × α)) :
    alookup k (p :: t) = if p.1 = k then some p.2 else alookup k t := rfl

theorem alookup_append {κ α : Type} [DecidableEq κ] (k : κ) (l₁ l₂ : List (κ × α)) :
    alookup k (l₁ ++ l₂) =
      match alookup k l₁ with
      | some v => some v
      | Option.none => alookup k l₂ := by
  induction l₁ with
  | nil => simp [alookup]
  | cons p t ih =>
    by_cases hp : p.1 = k
    · simp [alookup_cons, hp]
    · simp [alookup_cons, hp, ih]

theorem alookup_map_replace {κ α : Type} [DecidableEq κ] (k k' : κ) (v : α)
    (l : List (κ × α)) :
    alookup k' (l.map (fun p => if p.1 = k then (p.1, v) else p)) =
      if k' = k then (alookup k l).map (fun _ => v) else alookup k' l := by
  induction l with
  | nil => simp [alookup]
  | cons p t ih =>
    by_cases hk : k' = k
    · subst hk
      by_cases hp : p.1 = k'
      · simp [alookup_cons, hp]
      · simp [alookup_cons, hp, ih]
    · by_cases hp : p.1 = k
      · have hpk' : ¬ p.1 = k' := by
          rw [hp]; intro h; exact hk h.symm
        have hkk' : ¬ k = k' := fun h => hk h.symm
        simp [alookup_cons, hp, hpk', ih, hk, hkk']
      · by_cases hpk' : p.1 = k'
        · simp [alookup_cons, hp, hpk', hk]
        · simp [alookup_cons, hp, hpk', ih, hk]

theorem exists_alookup_of_any {κ α : Type} [DecidableEq κ] {k : κ}
    {l : List (κ × α)} (h : l.any (fun p => decide (p.1 = k)) = true) :
    ∃ w, alookup k l = some w := by
  induction l with
  | nil => simp at h
  | cons p t ih =>
    by_cases hp : p.1 = k
    · exact ⟨p.2, by simp [alookup_cons, hp]⟩
    · simp only [List.any_cons, Bool.or_eq_true] at h
      rcases h with h | h
      · exact absurd (of_decide_eq_true h) hp
      · rcases ih h with ⟨w, hw⟩
        exact ⟨w, by simp [alookup_cons, hp, hw]⟩

theorem alookup_eq_none_of_any_false {κ α : Type} [DecidableEq κ] {k : κ}
    {l : List (κ × α)} (h : l.any (fun p => decide (p.1 = k)) = false) :
    alookup k l = Option.none := by
  induction l with
  | nil => rfl
  | cons p t ih =>
    simp only [List.any_cons, Bool.or_eq_false_iff] at h
    have hp : ¬ p.1 = k := by
      intro hh
      rw [decide_eq_true hh] at h
      exact Bool.noConfusion h.1
    simp [alookup_cons, hp, ih h.2]

theorem alookup_aset_self {κ α : Type} [DecidableEq κ] (k : κ) (v : α)
    (l : List (κ × α)) : alookup k (aset k v l) = some v := by
  unfold aset
  split
  next hmem =>
    rw [alookup_map_replace, if_pos rfl]
    rcases exists_alookup_of_any hmem with ⟨w, hw⟩
    simp [hw]
  next hmem =>
    rw [alookup_append, alookup_eq_none_of_any_false (Bool.of_not_eq_true hmem)]
    simp [alookup_cons]

theorem alookup_aset_ne {κ α : Type} [DecidableEq κ] {k k' : κ} (v : α)
    (l : List (κ × α)) (hne : k' ≠ k) :
    alookup k' (aset k v l) = alookup k' l := by
  unfold aset
  split
  · rw [alookup_map_replace, if_neg hne]
  · rw [alookup_append]
    cases h : alookup k' l with
    | none => simp [alookup_cons, alookup, show ¬ k = k' from fun hh => hne hh.symm]
    | some w => simp

theorem alookup_aerase_ne {κ α : Type} [DecidableEq κ] {k k' : κ}
    (l : List (κ × α)) (hne : k' ≠ k) :
    alookup k' (aerase k l) = alookup k' l := by
  induction l with
  | nil => rfl
  | cons p t ih =>
    by_cases hp : p.1 = k
    · have hpk' : ¬ p.1 = k' := by rw [hp]; intro h; exact hne h.symm
      have hkk' : ¬ k = k' := fun h => hne h.symm
      simp [aerase, hp, alookup_cons, hpk', hkk']
    · simp [aerase, hp, alookup_cons, ih]

theorem alookup_eq_none_of_not_mem {κ α : Type} [DecidableEq κ] {k : κ}
    {l : List (κ × α)} (h : k ∉ l.map Prod.fst) : alookup k l = Option.none := by
  induction l with
  | nil => rfl
  | cons p t ih =>
    simp only [List.map_cons, List.mem_cons, not_or] at h
    have hp : ¬ p.1 = k := fun hh => h.1 hh.symm
    simp [alookup_cons, hp, ih h.2]

theorem mem_of_alookup_eq_some {κ α : Type} [DecidableEq κ] {k : κ} {v : α}
    {l : List (κ × α)} (h : alookup k l = some v) : k ∈ l.map Prod.fst := by
  by_contra hmem
  rw [alookup_eq_none_of_not_mem hmem] at h
  cases h

theorem alookup_aerase_self {κ α : Type} [DecidableEq κ] (k : κ)
    {l : List (κ × α)} (hnd : (l.map Prod.fst).Nodup) :
    alookup k (aerase k l) = Option.none := by
  induction l with
  | nil => rfl
  | cons p t ih =>
    simp only [List.map_cons, List.nodup_cons] at hnd
    by_cases hp : p.1 = k
    · simp only [aerase, hp, if_true]
      exact alookup_eq_none_of_not_mem (by rw [← hp]; exact hnd.1)
    · simp [aerase, hp, alookup_cons, ih hnd.2]

theorem aset_of_not_mem {κ α : Type} [DecidableEq κ] {k : κ} (v : α)
    {l : List (κ × α)} (h : k ∉ l.map Prod.fst) : aset k v l = l ++ [(k, v)] := by
  unfold aset
  have : l.any (fun p => decide (p.1 = k)) = false := by
    rw [List.any_eq_false]
    intro p hp
    simp only [decide_eq_true_eq]
    intro he
    exact h (by rw [← he]; exact List.mem_map_of_mem Prod.fst hp)
  simp [this]

theorem aerase_append_singleton {κ α : Type} [DecidableEq κ] {k : κ} (v : α)
    {l : List (κ × α)} (h : k ∉ l.map Prod.fst) :
    aerase k (l ++ [(k, v)]) = l := by
  induction l with
  | nil => simp [aerase]
  | cons p t ih =>
    simp only [List.map_cons, List.mem_cons, not_or] at h
    have hp : ¬ p.1 = k := fun hh => h.1 hh.symm
    simp [aerase, hp, ih h.2]

theorem aerase_aset_of_not_mem {κ α : Type} [DecidableEq κ] {k : κ} (v : α)
    {l : List (κ × α)} (h : k ∉ l.map Prod.fst) : aerase k (aset k v l) = l := by
  rw [aset_of_not_mem v h, aerase_append_singleton v h]

theorem map_fst_aerase_sublist {κ α : Type} [DecidableEq κ] (k : κ)
    (l : List (κ × α)) : ((aerase k l).map Prod.fst).Sublist (l.map Prod.fst) := by
  induction l with
  | nil => simp [aerase]
  | cons p t ih =>
    by_cases hp : p.1 = k
    · simp only [aerase, hp, if_true, List.map_cons]
      exact List.sublist_cons_self k (t.map Prod.fst)
    · simp only [aerase, hp, if_false, List.map_cons]
      exact ih.cons₂ p.1

theorem nodup_map_fst_aerase {κ α : Type} [DecidableEq κ] (k : κ)
    {l : List (κ × α)} (hnd : (l.map Prod.fst).Nodup) :
    ((aerase k l).map Prod.fst).Nodup :=
  (map_fst_aerase_sublist k l).nodup hnd

theorem length_aerase_of_mem {κ α : Type} [DecidableEq κ] {k : κ}
    {l : List (κ × α)} (h : k ∈ l.map Prod.fst) :
    (aerase k l).length = l.length - 1 := by
  induction l with
  | nil => cases h
  | cons p t ih =>
    by_cases hp : p.1 = k
    · simp [aerase, hp]
    · simp only [List.map_cons, List.mem_cons] at h
      rcases h with h | h
    -- h : k = p.1 contradicts hp
      · exact absurd h.symm hp
      · have ht : 1 ≤ t.length := by
          rcases List.mem_map.mp h with ⟨q, hq, _⟩
          exact List.length_pos.mpr (by intro hnil; rw [hnil] at hq; cases hq)
        simp only [aerase, hp, if_false, List.length_cons, ih h]
        omega

theorem length_aset_of_mem {κ α : Type} [DecidableEq κ] {k : κ} (v : α)
    {l : List (κ × α)} (h : k ∈ l.map Prod.fst) :
    (aset k v l).length = l.length := by
  unfold aset
  have : l.any (fun p => decide (p.1 = k)) = true := by
    rcases List.mem_map.mp h with ⟨q, hq, hqk⟩
    exact List.any_eq_true.mpr ⟨q, hq, decide_eq_true hqk⟩
  simp [this]

theorem length_aset_of_not_mem {κ α : Type} [DecidableEq κ] {k : κ} (v : α)
    {l : List (κ × α)} (h : k ∉ l.map Prod.fst) :
    (aset k v l).length = l.length + 1 := by
  rw [aset_of_not_mem v h]
  simp

theorem map_fst_aset_of_mem {κ α : Type} [DecidableEq κ] {k : κ} (v : α)
    {l : List (κ × α)} (h : k ∈ l.map Prod.fst) :
    (aset k v l).map Prod.fst = l.map Prod.fst := by
  unfold aset
  have hmem : l.any (fun p => decide (p.1 = k)) = true := by
    rcases List.mem_map.mp h with ⟨q, hq, hqk⟩
    exact List.any_eq_true.mpr ⟨q, hq, decide_eq_true hqk⟩
  simp only [hmem, if_true, List.map_map]
  apply List.map_congr_left
  intro p _
  by_cases hp : p.1 = k
  · simp [hp]
  · simp [hp]

/-- C10: an incoming private text message that is blank after stripping is
answered with the text-only prompt before the session table is consulted:
the entity store is unchanged (no identity allocated, no pending entry
created), nothing is persisted, the awaiting-comment or awaiting-feedback
session mode survives, and a following message is routed exactly as it
would have been had the blank message never arrived. -/
theorem c10_blank_message_preserves_state (s : Store)
    (sessions : List (Int × SessionState)) (user_id : Int) (raw : String)
    (msg_time : String) (notifyOk feedbackOk : Bool)
    (hblank : pyStrip raw = "") :
    handle_confession s sessions user_id raw msg_time notifyOk feedbackOk =
      ⟨s, sessions, [], .textOnlyPrompt⟩ ∧
    (∀ raw2 msg_time2 n2 f2,
      handle_confession
        (handle_confession s sessions user_id raw msg_time notifyOk feedbackOk).store
        (handle_confession s sessions user_id raw msg_time notifyOk feedbackOk).sessions
        user_id raw2 msg_time2 n2 f2 =
      handle_confession s sessions user_id raw2 msg_time2 n2 f2) := by
  have h1 : handle_confession s sessions user_id raw msg_time notifyOk feedbackOk =
      ⟨s, sessions, [], .textOnlyPrompt⟩ := by
    unfold handle_confession
    simp [hblank]
  exact ⟨h1, fun raw2 mt2 n2 f2 => by rw [h1]⟩

/-- C10 witness: the theorem applied to a whitespace-only message from a
user whose session is awaiting feedback. -/
theorem c10_blank_message_preserves_state_witness :
    pyStrip " \n " = "" ∧
    handle_confession initialStore [(7, SessionState.awaitingFeedback)] 7 " \n " "t" true true =
      ⟨initialStore, [(7, SessionState.awaitingFeedback)], [], .textOnlyPrompt⟩ :=
  ⟨rfl, (c10_blank_message_preserves_state initialStore
    [(7, SessionState.awaitingFeedback)] 7 " \n " "t" true true rfl).1⟩

/-- C6: when the moderator-notify step fails, the whole submission is
rolled back: the final store equals the pre-submission store exactly
(counter decremented back, pending entry removed), the rolled-back store
is the last snapshot persisted, and the failure is surfaced to the
submitter.  The freshness hypothesis states that the key about to be used
is not already pending, which holds for every store the code builds
(pending keys embed ids strictly below `next_id`). -/
theorem c6_notify_failure_rolls_back_submission (s : Store) (user_id : Int)
    (text : String)
    (hfresh : ("p" ++ toString s.next_id) ∉ s.pending.map Prod.fst) :
    (submit_pending_confession s user_id text false).store = s ∧
    (submit_pending_confession s user_id text false).outcome =
      .adminNotifyFailed s.next_id ∧
    (submit_pending_confession s user_id text false).saves.getLast? = some s := by
  have key : submit_pending_confession s user_id text false =
      { store := s,
        saves := [{ s with
          next_id := s.next_id + 1,
          pending := aset ("p" ++ toString s.next_id)
            ⟨s.next_id, text, user_id, get_user_alias s user_id⟩ s.pending }, s],
        outcome := .adminNotifyFailed s.next_id } := by
    unfold submit_pending_confession
    simp only [Bool.false_eq_true, if_false]
    have herase := aerase_aset_of_not_mem
      (⟨s.next_id, text, user_id, get_user_alias s user_id⟩ : PendingItem) hfresh
    cases s with
    | mk n pe po up =>
      simp only at herase ⊢
      rw [herase]
      simp [Int.add_sub_cancel]
  rw [key]
  exact ⟨rfl, rfl, rfl⟩

/-- C6 witness: the theorem applied to a store holding one posted item and
counter 5; the failed submission leaves it untouched. -/
theorem c6_notify_failure_rolls_back_submission_witness :
    ("p" ++ toString (⟨5, [("p4", ⟨4, "w", 9, "Bob"⟩)], [], []⟩ : Store).next_id) ∉
      ((⟨5, [("p4", ⟨4, "w", 9, "Bob"⟩)], [], []⟩ : Store).pending.map Prod.fst) ∧
    (submit_pending_confession ⟨5, [("p4", ⟨4, "w", 9, "Bob"⟩)], [], []⟩ 7 "z" false).store =
      ⟨5, [("p4", ⟨4, "w", 9, "Bob"⟩)], [], []⟩ :=
  ⟨by decide,
   (c6_notify_failure_rolls_back_submission ⟨5, [("p4", ⟨4, "w", 9, "Bob"⟩)], [], []⟩
      7 "z" (by decide)).1⟩

/-- C1: the concrete run showing `confession_bot.py` reassigning an
identity after an approve-publish-failure rollback.  Submissions one and
two receive identities 1 and 2; approving `p1` with a failing publish
decrements `next_id` (line 714), so the next submission also receives
identity 2 and its pending entry overwrites the still-pending second
submission.  `main_confession_bot.py` leaves the counter alone in the same
rollback (line 688) and hands the next submission the fresh identity 3. -/
theorem c1_identity_reused_after_approve_rollback :
    (submit_pending_confession
        (submit_pending_confession initialStore 11 "a" true).store
        22 "b" true).outcome = .received 2 ∧
    (submit_pending_confession
      (ConfessionBot.approve_callback
        (submit_pending_confession
          (submit_pending_confession initialStore 11 "a" true).store
          22 "b" true).store
        "p1" "t" Option.none).store
      33 "c" true).outcome = .received 2 ∧
    alookup "p2"
      (submit_pending_confession
        (ConfessionBot.approve_callback
          (submit_pending_confession
            (submit_pending_confession initialStore 11 "a" true).store
            22 "b" true).store
          "p1" "t" Option.none).store
        33 "c" true).store.pending = some ⟨2, "c", 33, "Anonymous"⟩ ∧
    (submit_pending_confession
      (MainConfessionBot.approve_callback
        (submit_pending_confession
          (submit_pending_confession initialStore 11 "a" true).store
          22 "b" true).store
        "p1" "t" Option.none).store
      33 "c" true).outcome = .received 3 := by
  exact ⟨rfl, rfl, rfl, rfl⟩

/-- C4 counterexample: `main_confession_bot.py`'s `/deleteconfession` on a
posted confession that has a recorded channel post deletes the local entry
but never invokes the Publisher's delete, and its report carries no
channel status, contrary to the claim that deletion asks the Publisher to
remove the external post and reports the external outcome. -/
theorem c4_main_delete_skips_publisher :
    (MainConfessionBot.delete_confession_command
      ⟨5, [], [("7", ⟨"x", "A", "t", [], some 99⟩)], []⟩ 7).found = true ∧
    (MainConfessionBot.delete_confession_command
      ⟨5, [], [("7", ⟨"x", "A", "t", [], some 99⟩)], []⟩ 7).publisherCalled = false ∧
    (MainConfessionBot.delete_confession_command
      ⟨5, [], [("7", ⟨"x", "A", "t", [], some 99⟩)], []⟩ 7).channelStatus = Option.none ∧
    alookup "7" (MainConfessionBot.delete_confession_command
      ⟨5, [], [("7", ⟨"x", "A", "t", [], some 99⟩)], []⟩ 7).store.posted = Option.none := by
  exact ⟨rfl, rfl, rfl, rfl⟩

/-- C4 (amended): in `confession_bot.py`, deleting a posted confession
always removes the local entry (regardless of the Publisher outcome),
leaves every other posted entry untouched, invokes the Publisher exactly
when a channel message id is recorded, and the report distinguishes
successful channel removal, failed channel removal, and no recorded
channel post.  `main_confession_bot.py` performs only the local removal
(see the counterexample). -/
theorem c4_delete_cleans_local_and_reports_channel (s : Store) (conf_id : Int)
    (deleteOk : Bool) (conf : PostedConf)
    (hfound : alookup (toString conf_id) s.posted = some conf)
    (hnd : (s.posted.map Prod.fst).Nodup) :
    (ConfessionBot.delete_confession_command s conf_id deleteOk).found = true ∧
    (ConfessionBot.delete_confession_command s conf_id deleteOk).publisherCalled =
      conf.channel_message_id.isSome ∧
    (ConfessionBot.delete_confession_command s conf_id deleteOk).channelStatus =
      some (match conf.channel_message_id with
        | some _ => if deleteOk then ChannelStatus.channelPostDeleted
                    else ChannelStatus.channelDeleteFailed
        | Option.none => ChannelStatus.noChannelMessageId) ∧
    alookup (toString conf_id)
      (ConfessionBot.delete_confession_command s conf_id deleteOk).store.posted =
      Option.none ∧
    (∀ key, key ≠ toString conf_id →
      alookup key (ConfessionBot.delete_confession_command s conf_id deleteOk).store.posted =
        alookup key s.posted) := by
  have key : ConfessionBot.delete_confession_command s conf_id deleteOk =
      { store := { s with posted := aerase (toString conf_id) s.posted },
        found := true,
        publisherCalled := conf.channel_message_id.isSome,
        channelStatus := some (match conf.channel_message_id with
          | some _ => if deleteOk then ChannelStatus.channelPostDeleted
                      else ChannelStatus.channelDeleteFailed
          | Option.none => ChannelStatus.noChannelMessageId) } := by
    unfold ConfessionBot.delete_confession_command
    simp only [hfound]
  rw [key]
  exact ⟨rfl, rfl, rfl, alookup_aerase_self _ hnd,
    fun key' hk => alookup_aerase_ne _ hk⟩

/-- C4 witness: the amended theorem applied to a store with two posted
confessions, one with a channel post whose external removal fails. -/
theorem c4_delete_cleans_local_and_reports_channel_witness :
    alookup (toString (7 : Int))
      (⟨5, [], [("7", ⟨"x", "A", "t", [], some 99⟩), ("8", ⟨"y", "B", "t", [], Option.none⟩)], []⟩ : Store).posted =
      some ⟨"x", "A", "t", [], some 99⟩ ∧
    ((⟨5, [], [("7", ⟨"x", "A", "t", [], some 99⟩), ("8", ⟨"y", "B", "t", [], Option.none⟩)], []⟩ : Store).posted.map Prod.fst).Nodup ∧
    (ConfessionBot.delete_confession_command
      ⟨5, [], [("7", ⟨"x", "A", "t", [], some 99⟩), ("8", ⟨"y", "B", "t", [], Option.none⟩)], []⟩
      7 false).channelStatus = some ChannelStatus.channelDeleteFailed :=
  ⟨by decide, by decide,
   (c4_delete_cleans_local_and_reports_channel
      ⟨5, [], [("7", ⟨"x", "A", "t", [], some 99⟩), ("8", ⟨"y", "B", "t", [], Option.none⟩)], []⟩
      7 false ⟨"x", "A", "t", [], some 99⟩ (by decide) (by decide)).2.2.1⟩

/-- Absent-pending-key behaviour shared by the admin callbacks: both
files' `approve` and `reject` answer "Already Handled" and leave the
store untouched, writing no snapshot. -/
theorem admin_callbacks_absent_key (s : Store) (k pt : String)
    (habs : alookup k s.pending = Option.none) :
    (∀ pub, ConfessionBot.approve_callback s k pt pub = ⟨s, [], .alreadyHandled⟩) ∧
    (∀ pub, MainConfessionBot.approve_callback s k pt pub = ⟨s, [], .alreadyHandled⟩) ∧
    reject_callback s k = ⟨s, [], .alreadyHandled⟩ := by
  refine ⟨fun pub => ?_, fun pub => ?_, ?_⟩
  · unfold ConfessionBot.approve_callback approve_remove
    rw [habs]
  · unfold MainConfessionBot.approve_callback approve_remove
    rw [habs]
  · unfold reject_callback
    rw [habs]

/-- C5: the pending removal is an atomic check-and-remove.  (i) When the
key is absent, `approve` and `reject` in both files answer
"Already Handled", write nothing, and leave the store unchanged.
(ii) When the key is present, `reject` succeeds, and `approve`'s removal
phase takes the item atomically: at the interleaving point that follows
it (the awaited publish), a racing `reject` or `approve` on the same key
observes "Already Handled" and changes nothing — so of two admin actions
racing on one pending key exactly one wins. -/
theorem c5_approve_reject_already_handled_race (s : Store) (k pt : String)
    (hnd : (s.pending.map Prod.fst).Nodup) :
    (alookup k s.pending = Option.none →
      (∀ pub, ConfessionBot.approve_callback s k pt pub = ⟨s, [], .alreadyHandled⟩) ∧
      (∀ pub, MainConfessionBot.approve_callback s k pt pub = ⟨s, [], .alreadyHandled⟩) ∧
      reject_callback s k = ⟨s, [], .alreadyHandled⟩) ∧
    (∀ item, alookup k s.pending = some item →
      (reject_callback s k).outcome = .rejected ∧
      ∃ s1, approve_remove s k pt = some (s1, item) ∧
        alookup k s1.pending = Option.none ∧
        (∀ pub pt2, ConfessionBot.approve_callback s1 k pt2 pub = ⟨s1, [], .alreadyHandled⟩) ∧
        (∀ pub pt2, MainConfessionBot.approve_callback s1 k pt2 pub = ⟨s1, [], .alreadyHandled⟩) ∧
        reject_callback s1 k = ⟨s1, [], .alreadyHandled⟩) := by
  constructor
  · intro habs
    exact admin_callbacks_absent_key s k pt habs
  · intro item hsome
    constructor
    · unfold reject_callback
      rw [hsome]
    · refine ⟨{ s with
        pending := aerase k s.pending,
        posted := aset (toString item.id)
          { text := item.text, user_alias := item.user_alias, post_time := pt,
            replies := [], channel_message_id := Option.none } s.posted }, ?_, ?_, ?_⟩
      · unfold approve_remove
        rw [hsome]
      · exact alookup_aerase_self k hnd
      · have habs1 : alookup k ({ s with
            pending := aerase k s.pending,
            posted := aset (toString item.id)
              { text := item.text, user_alias := item.user_alias, post_time := pt,
                replies := [], channel_message_id := Option.none } s.posted } : Store).pending =
            Option.none := alookup_aerase_self k hnd
        exact ⟨fun pub pt2 => (admin_callbacks_absent_key _ k pt2 habs1).1 pub,
          fun pub pt2 => (admin_callbacks_absent_key _ k pt2 habs1).2.1 pub,
          (admin_callbacks_absent_key _ k pt habs1).2.2⟩

/-- C5 witness: the theorem applied to a store with one pending item,
exercising both the absent branch (key `p9`) and the race branch
(key `p4`). -/
theorem c5_approve_reject_already_handled_race_witness :
    (((⟨5, [("p4", ⟨4, "w", 9, "Bob"⟩)], [], []⟩ : Store).pending.map Prod.fst).Nodup ∧
      alookup "p9" (⟨5, [("p4", ⟨4, "w", 9, "Bob"⟩)], [], []⟩ : Store).pending = Option.none ∧
      alookup "p4" (⟨5, [("p4", ⟨4, "w", 9, "Bob"⟩)], [], []⟩ : Store).pending =
        some ⟨4, "w", 9, "Bob"⟩) ∧
    reject_callback ⟨5, [("p4", ⟨4, "w", 9, "Bob"⟩)], [], []⟩ "p9" =
      ⟨⟨5, [("p4", ⟨4, "w", 9, "Bob"⟩)], [], []⟩, [], .alreadyHandled⟩ ∧
    (reject_callback ⟨5, [("p4", ⟨4, "w", 9, "Bob"⟩)], [], []⟩ "p4").outcome = .rejected :=
  ⟨⟨by decide, by decide, by decide⟩,
   (c5_approve_reject_already_handled_race ⟨5, [("p4", ⟨4, "w", 9, "Bob"⟩)], [], []⟩
      "p9" "t" (by decide)).1 (by decide) |>.2.2,
   ((c5_approve_reject_already_handled_race ⟨5, [("p4", ⟨4, "w", 9, "Bob"⟩)], [], []⟩
      "p4" "t" (by decide)).2 ⟨4, "w", 9, "Bob"⟩ (by decide)).1⟩


/-!  The vote subsystem: map-level lemmas and the step behaviour of
`vote_comment_callback`. -/

theorem not_mem_of_alookup_eq_none {κ α : Type} [DecidableEq κ] {k : κ}
    {l : List (κ × α)} (h : alookup k l = Option.none) : k ∉ l.map Prod.fst := by
  intro hmem
  rcases List.mem_map.mp hmem with ⟨p, hp, hpk⟩
  have : ∃ w, alookup k l = some w := by
    apply exists_alookup_of_any
    exact List.any_eq_true.mpr ⟨p, hp, decide_eq_true hpk⟩
  rcases this with ⟨w, hw⟩
  rw [hw] at h
  cases h

theorem mem_aset_values {κ α : Type} [DecidableEq κ] {k : κ} {v : α}
    {l : List (κ × α)} (P : α → Prop) (hl : ∀ p ∈ l, P p.2) (hv : P v) :
    ∀ p ∈ aset k v l, P p.2 := by
  intro p hp
  unfold aset at hp
  split at hp
  · rcases List.mem_map.mp hp with ⟨q, hq, hqe⟩
    by_cases hqk : q.1 = k
    · rw [if_pos hqk] at hqe
      rw [← hqe]
      exact hv
    · rw [if_neg hqk] at hqe
      rw [← hqe]
      exact hl q hq
  · rcases List.mem_append.mp hp with h | h
    · exact hl p h
    · rcases List.mem_singleton.mp h with rfl
      exact hv

theorem map_fst_aset_of_not_mem {κ α : Type} [DecidableEq κ] {k : κ} (v : α)
    {l : List (κ × α)} (h : k ∉ l.map Prod.fst) :
    (aset k v l).map Prod.fst = l.map Prod.fst ++ [k] := by
  rw [aset_of_not_mem v h]
  simp

/-- The vote a voter's filtered history ends with (what "the last kind
cast" means). -/
def last_vote (u : String) (votes : List (String × String)) : Option String :=
  ((votes.filter (fun p => decide (p.1 = u))).getLast?).map Prod.snd

theorem last_vote_append_self (u k : String) (votes : List (String × String)) :
    last_vote u (votes ++ [(u, k)]) = some k := by
  unfold last_vote
  rw [List.filter_append]
  simp

theorem last_vote_append_other {u u' : String} (k : String)
    (votes : List (String × String)) (h : u' ≠ u) :
    last_vote u' (votes ++ [(u, k)]) = last_vote u' votes := by
  unfold last_vote
  rw [List.filter_append]
  have : ([(u, k)].filter (fun p => decide (p.1 = u'))) = [] := by
    simp [show ¬ u = u' from fun hh => h hh.symm]
  rw [this, List.append_nil]

theorem count_kind_append_singleton (l : List (String × String)) (u k t : String) :
    count_kind (l ++ [(u, k)]) t = count_kind l t + (if k = t then 1 else 0) := by
  unfold count_kind
  rw [List.filter_append]
  by_cases hk : k = t
  · simp [hk]
  · simp [hk]

theorem count_kind_le_length (l : List (String × String)) (t : String) :
    count_kind l t ≤ l.length := by
  unfold count_kind
  exact List.length_filter_le _ l

theorem count_kind_like_dislike_le (l : List (String × String)) :
    count_kind l "like" + count_kind l "dislike" ≤ l.length := by
  induction l with
  | nil => simp [count_kind]
  | cons p t ih =>
    unfold count_kind at ih ⊢
    by_cases hl : p.2 = "like"
    · have hd : ¬ p.2 = "dislike" := by rw [hl]; decide
      simp [List.filter_cons, hl, hd]
      omega
    · by_cases hd : p.2 = "dislike"
      · simp [List.filter_cons, hl, hd]
        omega
      · simp [List.filter_cons, hl, hd]
        omega

theorem count_kind_sum_of_wellkinded (l : List (String × String))
    (h : ∀ p ∈ l, p.2 = "like" ∨ p.2 = "dislike") :
    count_kind l "like" + count_kind l "dislike" = l.length := by
  induction l with
  | nil => simp [count_kind]
  | cons p t ih =>
    have hp := h p (List.mem_cons_self p t)
    have htail : ∀ q ∈ t, q.2 = "like" ∨ q.2 = "dislike" :=
      fun q hq => h q (List.mem_cons_of_mem p hq)
    have ihv := ih htail
    unfold count_kind at ihv ⊢
    rcases hp with hl | hd
    · have hnd : ¬ p.2 = "dislike" := by rw [hl]; decide
      simp [List.filter_cons, hl, hnd]
      omega
    · have hnl : ¬ p.2 = "like" := by rw [hd]; decide
      simp [List.filter_cons, hd, hnl]
      omega

theorem find?_replaceReply (rs : List Reply) (rid : Int) (r r' : Reply)
    (hfind : rs.find? (fun x => decide (x.reply_id = rid)) = some r)
    (hr' : r'.reply_id = rid) :
    (replaceReply rid r' rs).find? (fun x => decide (x.reply_id = rid)) = some r' := by
  induction rs with
  | nil => cases hfind
  | cons x t ih =>
    by_cases hx : x.reply_id = rid
    · simp only [replaceReply, if_pos hx]
      simp [List.find?_cons, decide_eq_true hr']
    · rw [List.find?_cons, decide_eq_false hx] at hfind
      simp only [replaceReply, if_neg hx]
      rw [List.find?_cons, decide_eq_false hx]
      exact ih hfind

/-- Step behaviour of a vote that re-casts the voter's stored kind:
answered without any store change or persistence write. -/
theorem vote_comment_recast (s : Store) (cid rid : Int) (u k : String) (r : Reply)
    (hfind : find_reply s cid rid = some r)
    (hprev : alookup u r.voters = some k) :
    vote_comment_callback s cid rid u k = ⟨s, false, .alreadyVoted k⟩ := by
  unfold find_reply at hfind
  cases hconf : alookup (toString cid) s.posted with
  | none => rw [hconf] at hfind; cases hfind
  | some conf =>
    rw [hconf] at hfind
    simp only [Option.bind_eq_bind, Option.some_bind] at hfind
    unfold vote_comment_callback
    simp [hconf, hfind, hprev]

/-- Step behaviour of a vote that writes (no stored vote, or a different
one): the single voters-map entry is overwritten and the store saved;
everything else about the reply is unchanged. -/
theorem vote_comment_write (s : Store) (cid rid : Int) (u k : String) (r : Reply)
    (hfind : find_reply s cid rid = some r)
    (hprev : alookup u r.voters ≠ some k) :
    (vote_comment_callback s cid rid u k).saved = true ∧
    find_reply (vote_comment_callback s cid rid u k).store cid rid =
      some { r with voters := aset u k r.voters } := by
  unfold find_reply at hfind
  cases hconf : alookup (toString cid) s.posted with
  | none => rw [hconf] at hfind; cases hfind
  | some conf =>
    rw [hconf] at hfind
    simp only [Option.bind_eq_bind, Option.some_bind] at hfind
    have hrid : r.reply_id = rid := by
      have := List.find?_some hfind
      exact of_decide_eq_true this
    unfold vote_comment_callback
    simp only [hconf, hfind, if_neg hprev]
    constructor
    · trivial
    · unfold find_reply
      simp only [alookup_aset_self, Option.bind_eq_bind, Option.some_bind]
      exact find?_replaceReply conf.replies rid r _ hfind hrid

/-- Folding a sequence of votes on one comment through the handler. -/
def apply_votes (cid rid : Int) : Store → List (String × String) → Store
  | s, [] => s
  | s, (u, k) :: rest =>
    apply_votes cid rid (vote_comment_callback s cid rid u k).store rest

/-- The voters-map invariant carried through any sequence of votes on one
comment: distinct voter keys, well-formed kinds, each voter's entry equal
to the last kind that voter cast, and the key set equal to the set of
voters seen so far. -/
theorem apply_votes_invariant (cid rid : Int) :
    ∀ (votes : List (String × String)) (s : Store) (r : Reply)
      (processed : List (String × String)),
    find_reply s cid rid = some r →
    (r.voters.map Prod.fst).Nodup →
    (∀ p ∈ r.voters, p.2 = "like" ∨ p.2 = "dislike") →
    (∀ u, alookup u r.voters = last_vote u processed) →
    (r.voters.map Prod.fst).toFinset = (processed.map Prod.fst).toFinset →
    (∀ p ∈ votes, p.2 = "like" ∨ p.2 = "dislike") →
    ∃ r', find_reply (apply_votes cid rid s votes) cid rid = some r' ∧
      (r'.voters.map Prod.fst).Nodup ∧
      (∀ p ∈ r'.voters, p.2 = "like" ∨ p.2 = "dislike") ∧
      (∀ u, alookup u r'.voters = last_vote u (processed ++ votes)) ∧
      (r'.voters.map Prod.fst).toFinset = ((processed ++ votes).map Prod.fst).toFinset := by
  intro votes
  induction votes with
  | nil =>
    intro s r processed hfind hnd hwf hlast hset _
    exact ⟨r, by simpa [apply_votes] using hfind, hnd, hwf,
      by simpa using hlast, by simpa using hset⟩
  | cons p rest ih =>
    intro s r processed hfind hnd hwf hlast hset hkinds
    obtain ⟨u, k⟩ := p
    have hkind : k = "like" ∨ k = "dislike" := hkinds (u, k) (List.mem_cons_self _ _)
    have hkrest : ∀ q ∈ rest, q.2 = "like" ∨ q.2 = "dislike" :=
      fun q hq => hkinds q (List.mem_cons_of_mem _ hq)
    have happ : apply_votes cid rid s ((u, k) :: rest) =
        apply_votes cid rid (vote_comment_callback s cid rid u k).store rest := rfl
    by_cases hprev : alookup u r.voters = some k
    · -- re-cast of the stored kind: the store does not move
      have hstep := vote_comment_recast s cid rid u k r hfind hprev
      have hs' : (vote_comment_callback s cid rid u k).store = s := by rw [hstep]
      have hlast' : ∀ u', alookup u' r.voters = last_vote u' (processed ++ [(u, k)]) := by
        intro u'
        by_cases hu : u' = u
        · subst hu
          rw [last_vote_append_self, hprev]
        · rw [last_vote_append_other k processed hu]
          exact hlast u'
      have humem : u ∈ (r.voters.map Prod.fst).toFinset :=
        List.mem_toFinset.mpr (mem_of_alookup_eq_some hprev)
      have hset' : (r.voters.map Prod.fst).toFinset =
          ((processed ++ [(u, k)]).map Prod.fst).toFinset := by
        rw [List.map_append, List.toFinset_append]
        rw [← hset]
        have hsub : ([(u, k)].map Prod.fst).toFinset ⊆ (r.voters.map Prod.fst).toFinset := by
          simp only [List.map_cons, List.map_nil, List.toFinset_cons, List.toFinset_nil,
            insert_emptyc_eq, Finset.singleton_subset_iff]
          exact humem
        exact (Finset.union_eq_left.mpr hsub).symm
      have := ih (vote_comment_callback s cid rid u k).store r (processed ++ [(u, k)])
        (by rw [hs']; exact hfind) hnd hwf hlast' hset' hkrest
      rw [happ]
      simpa using this
    · -- a new vote or an overwrite: the single map entry is set
      have hstep := vote_comment_write s cid rid u k r hfind hprev
      have hfind' := hstep.2
      set voters' := aset u k r.voters with hv'
      have hnd' : ((aset u k r.voters).map Prod.fst).Nodup := by
        by_cases hmem : u ∈ r.voters.map Prod.fst
        · rw [map_fst_aset_of_mem k hmem]
          exact hnd
        · rw [map_fst_aset_of_not_mem k hmem]
          have hcons : (u :: r.voters.map Prod.fst).Nodup :=
            List.nodup_cons.mpr ⟨hmem, hnd⟩
          exact (List.perm_append_singleton u (r.voters.map Prod.fst)).nodup_iff.mpr hcons
      have hwf' : ∀ p ∈ aset u k r.voters, p.2 = "like" ∨ p.2 = "dislike" :=
        mem_aset_values (fun v => v = "like" ∨ v = "dislike") hwf hkind
      have hlast' : ∀ u', alookup u' (aset u k r.voters) =
          last_vote u' (processed ++ [(u, k)]) := by
        intro u'
        by_cases hu : u' = u
        · subst hu
          rw [last_vote_append_self, alookup_aset_self]
        · rw [last_vote_append_other k processed hu, alookup_aset_ne k r.voters hu]
          exact hlast u'
      have hset' : ((aset u k r.voters).map Prod.fst).toFinset =
          ((processed ++ [(u, k)]).map Prod.fst).toFinset := by
        rw [List.map_append, List.toFinset_append, ← hset]
        simp only [List.map_cons, List.map_nil, List.toFinset_cons, List.toFinset_nil,
          insert_emptyc_eq]
        by_cases hmem : u ∈ r.voters.map Prod.fst
        · rw [map_fst_aset_of_mem k hmem]
          have : u ∈ (r.voters.map Prod.fst).toFinset := List.mem_toFinset.mpr hmem
          exact (Finset.union_eq_left.mpr (Finset.singleton_subset_iff.mpr this)).symm
        · rw [map_fst_aset_of_not_mem k hmem]
          rw [List.toFinset_append]
          simp
      have := ih (vote_comment_callback s cid rid u k).store
        { r with voters := aset u k r.voters } (processed ++ [(u, k)])
        hfind' hnd' hwf' hlast' hset' hkrest
      rw [happ]
      simpa using this

/-- C3: over any sequence of votes on one comment whose kinds are the two
`VoteKind`s the buttons send, the final map entry of every voter is the
last kind that voter cast, the derived like/dislike tallies sum to the
number of distinct voters who ever voted, and re-casting a stored kind is
observably idempotent: the handler returns with the store unchanged and
no persistence write. -/
theorem c3_vote_last_kind_counts_idempotent (s : Store) (cid rid : Int) (r : Reply)
    (hfind : find_reply s cid rid = some r)
    (hinit : r.voters = [])
    (votes : List (String × String))
    (hkinds : ∀ p ∈ votes, p.2 = "like" ∨ p.2 = "dislike") :
    (∃ r', find_reply (apply_votes cid rid s votes) cid rid = some r' ∧
      (∀ u, alookup u r'.voters = last_vote u votes) ∧
      count_kind r'.voters "like" + count_kind r'.voters "dislike" = r'.voters.length ∧
      r'.voters.length = (votes.map Prod.fst).toFinset.card) ∧
    (∀ s₀ (r₀ : Reply) u k, find_reply s₀ cid rid = some r₀ →
      alookup u r₀.voters = some k →
      vote_comment_callback s₀ cid rid u k = ⟨s₀, false, .alreadyVoted k⟩) := by
  constructor
  · have hbase := apply_votes_invariant cid rid votes s r []
      hfind (by rw [hinit]; exact List.nodup_nil)
      (by rw [hinit]; intro p hp; cases hp)
      (fun u => by rw [hinit]; rfl) (by rw [hinit]) hkinds
    rcases hbase with ⟨r', h1, hnd', hwf', hlast', hset'⟩
    refine ⟨r', h1, by simpa using hlast',
      count_kind_sum_of_wellkinded _ hwf', ?_⟩
    have hcard : (r'.voters.map Prod.fst).toFinset.card = r'.voters.length := by
      rw [List.toFinset_card_of_nodup hnd']
      simp
    rw [← hcard, hset']
    simp
  · intro s₀ r₀ u k h1 h2
    exact vote_comment_recast s₀ cid rid u k r₀ h1 h2

/-- C3 witness: the theorem applied to user u1 voting like, u2 dislike,
u1 switching to dislike, on a freshly-commented confession. -/
theorem c3_vote_last_kind_counts_idempotent_witness :
    find_reply ⟨5, [], [("4", ⟨"x", "A", "t", [⟨9, "hi", "B", "t", []⟩], some 3⟩)], []⟩ 4 9 =
      some ⟨9, "hi", "B", "t", []⟩ ∧
    (∀ p ∈ [("u1", "like"), ("u2", "dislike"), ("u1", "dislike")],
      Prod.snd p = "like" ∨ Prod.snd p = "dislike") ∧
    (∃ r', find_reply (apply_votes 4 9
        ⟨5, [], [("4", ⟨"x", "A", "t", [⟨9, "hi", "B", "t", []⟩], some 3⟩)], []⟩
        [("u1", "like"), ("u2", "dislike"), ("u1", "dislike")]) 4 9 = some r' ∧
      (∀ u, alookup u r'.voters =
        last_vote u [("u1", "like"), ("u2", "dislike"), ("u1", "dislike")]) ∧
      count_kind r'.voters "like" + count_kind r'.voters "dislike" = r'.voters.length ∧
      r'.voters.length =
        ([("u1", "like"), ("u2", "dislike"), ("u1", "dislike")].map Prod.fst).toFinset.card) :=
  ⟨rfl, by decide,
   (c3_vote_last_kind_counts_idempotent
      ⟨5, [], [("4", ⟨"x", "A", "t", [⟨9, "hi", "B", "t", []⟩], some 3⟩)], []⟩
      4 9 ⟨9, "hi", "B", "t", []⟩ rfl rfl
      [("u1", "like"), ("u2", "dislike"), ("u1", "dislike")] (by decide)).1⟩

/-- C9: the vote handler stores the callback's kind string verbatim,
without validating it against like/dislike.  A fresh voter casting any
other kind is recorded in the voters map and saved, yet both tallies
count only entries exactly equal to "like" or "dislike", so afterwards
the two tallies sum to strictly less than the number of voters. -/
theorem c9_unvalidated_kind_stored_but_uncounted (s : Store) (cid rid : Int)
    (r : Reply) (u k : String)
    (hfind : find_reply s cid rid = some r)
    (hfresh : alookup u r.voters = Option.none)
    (hk1 : k ≠ "like") (hk2 : k ≠ "dislike") :
    (vote_comment_callback s cid rid u k).saved = true ∧
    ∃ r', find_reply (vote_comment_callback s cid rid u k).store cid rid = some r' ∧
      alookup u r'.voters = some k ∧
      count_kind r'.voters "like" = count_kind r.voters "like" ∧
      count_kind r'.voters "dislike" = count_kind r.voters "dislike" ∧
      r'.voters.length = r.voters.length + 1 ∧
      count_kind r'.voters "like" + count_kind r'.voters "dislike" < r'.voters.length := by
  have hprev : alookup u r.voters ≠ some k := by
    rw [hfresh]
    intro h
    cases h
  have hstep := vote_comment_write s cid rid u k r hfind hprev
  have hnotmem : u ∉ r.voters.map Prod.fst := not_mem_of_alookup_eq_none hfresh
  have happ : aset u k r.voters = r.voters ++ [(u, k)] := aset_of_not_mem k hnotmem
  have hlen : (aset u k r.voters).length = r.voters.length + 1 := by
    rw [happ]
    simp
  have hlc : count_kind (aset u k r.voters) "like" = count_kind r.voters "like" := by
    rw [happ, count_kind_append_singleton]
    simp [hk1]
  have hdc : count_kind (aset u k r.voters) "dislike" = count_kind r.voters "dislike" := by
    rw [happ, count_kind_append_singleton]
    simp [hk2]
  refine ⟨hstep.1, { r with voters := aset u k r.voters }, hstep.2,
    alookup_aset_self u k r.voters, hlc, hdc, hlen, ?_⟩
  have hle := count_kind_like_dislike_le r.voters
  simp only [hlc, hdc, hlen]
  omega

/-- C9 witness: the theorem applied to a fresh voter casting the kind
string "banana". -/
theorem c9_unvalidated_kind_stored_but_uncounted_witness :
    find_reply ⟨5, [], [("4", ⟨"x", "A", "t", [⟨9, "hi", "B", "t", [("u1", "like")]⟩], some 3⟩)], []⟩ 4 9 =
      some ⟨9, "hi", "B", "t", [("u1", "like")]⟩ ∧
    alookup "u2" (Reply.voters ⟨9, "hi", "B", "t", [("u1", "like")]⟩) = Option.none ∧
    ("banana" : String) ≠ "like" ∧ ("banana" : String) ≠ "dislike" ∧
    (vote_comment_callback
      ⟨5, [], [("4", ⟨"x", "A", "t", [⟨9, "hi", "B", "t", [("u1", "like")]⟩], some 3⟩)], []⟩
      4 9 "u2" "banana").saved = true :=
  ⟨rfl, rfl, by decide, by decide,
   (c9_unvalidated_kind_stored_but_uncounted
      ⟨5, [], [("4", ⟨"x", "A", "t", [⟨9, "hi", "B", "t", [("u1", "like")]⟩], some 3⟩)], []⟩
      4 9 ⟨9, "hi", "B", "t", [("u1", "like")]⟩ "u2" "banana"
      rfl rfl (by decide) (by decide)).1⟩

/-!  The batch-approval coordinator of `confession_bot.py`. -/

theorem set_channel_message_id_eq (s : Store) (key : String) (pc : PostedConf)
    (mid : Int) (h : alookup key s.posted = some pc) :
    set_channel_message_id s key mid =
      { s with posted := aset key { pc with channel_message_id := some mid } s.posted } := by
  unfold set_channel_message_id
  rw [h]

theorem alookup_of_aerase_eq_some {κ α : Type} [DecidableEq κ] {k k' : κ} {v : α}
    {l : List (κ × α)} (hnd : (l.map Prod.fst).Nodup)
    (h : alookup k' (aerase k l) = some v) : alookup k' l = some v := by
  by_cases hkk : k' = k
  · subst hkk
    rw [alookup_aerase_self k' hnd] at h
    cases h
  · rw [alookup_aerase_ne l hkk] at h
    exact h

/-- Specification of `confession_bot.py`'s batch loop on a selection
`ks1 ++ k0 :: ks2` of distinct pending keys in which every `ks1` publish
succeeds and `k0`'s publish fails: the loop posts the `ks1` items with
their message ids, stops at `k0` restoring its pending entry, never
touches the `ks2` keys, and leaves every other pending entry and every
unrelated posted entry unchanged. -/
theorem batch_loop_spec (publish : Int → Option Int) (pt : String) :
    ∀ (ks1 : List String) (k0 : String) (ks2 : List String) (s : Store) (a : Nat),
    (ks1 ++ k0 :: ks2).Nodup →
    (s.pending.map Prod.fst).Nodup →
    (∀ k ∈ ks1 ++ k0 :: ks2, (alookup k s.pending).isSome) →
    (∀ k item, alookup k s.pending = some item →
      alookup (toString item.id) s.posted = Option.none) →
    (∀ k k' item item', alookup k s.pending = some item →
      alookup k' s.pending = some item' → toString item.id = toString item'.id → k = k') →
    (∀ k ∈ ks1, ∀ item, alookup k s.pending = some item → (publish item.id).isSome) →
    (∀ item, alookup k0 s.pending = some item → publish item.id = Option.none) →
    (ConfessionBot.batch_loop publish pt (ks1 ++ k0 :: ks2) s a).2 = a + ks1.length ∧
    (ConfessionBot.batch_loop publish pt (ks1 ++ k0 :: ks2) s a).1.pending.length +
      ks1.length = s.pending.length ∧
    (∀ k, k ∉ ks1 →
      alookup k (ConfessionBot.batch_loop publish pt (ks1 ++ k0 :: ks2) s a).1.pending =
        alookup k s.pending) ∧
    (∀ k ∈ ks1,
      alookup k (ConfessionBot.batch_loop publish pt (ks1 ++ k0 :: ks2) s a).1.pending =
        Option.none) ∧
    (∀ k ∈ ks1, ∀ item, alookup k s.pending = some item →
      alookup (toString item.id)
        (ConfessionBot.batch_loop publish pt (ks1 ++ k0 :: ks2) s a).1.posted =
        some ⟨item.text, item.user_alias, pt, [], publish item.id⟩) ∧
    (∀ pk, (∀ k ∈ ks1, ∀ item, alookup k s.pending = some item → pk ≠ toString item.id) →
      alookup pk (ConfessionBot.batch_loop publish pt (ks1 ++ k0 :: ks2) s a).1.posted =
        alookup pk s.posted) := by
  intro ks1
  induction ks1 with
  | nil =>
    intro k0 ks2 s a hndsel hnd hmem hfresh hinj _ hfail
    have hk0 : (alookup k0 s.pending).isSome :=
      hmem k0 (by simp)
    rcases Option.isSome_iff_exists.mp hk0 with ⟨item0, hitem0⟩
    have hpub0 : publish item0.id = Option.none := hfail item0 hitem0
    have hk0mem : k0 ∈ s.pending.map Prod.fst := mem_of_alookup_eq_some hitem0
    have hkey0 : alookup (toString item0.id) s.posted = Option.none :=
      hfresh k0 item0 hitem0
    have hkey0notmem : (toString item0.id) ∉ s.posted.map Prod.fst :=
      not_mem_of_alookup_eq_none hkey0
    have hk0notmem_erase : k0 ∉ (aerase k0 s.pending).map Prod.fst :=
      not_mem_of_alookup_eq_none (alookup_aerase_self k0 hnd)
    have hloop : ConfessionBot.batch_loop publish pt ([] ++ k0 :: ks2) s a =
        ({ s with
            posted := aerase (toString item0.id)
              (aset (toString item0.id)
                ⟨item0.text, item0.user_alias, pt, [], Option.none⟩ s.posted),
            pending := aset k0 item0 (aerase k0 s.pending) }, a) := by
      show ConfessionBot.batch_loop publish pt (k0 :: ks2) s a = _
      simp only [ConfessionBot.batch_loop, hitem0, hpub0]
    rw [hloop]
    have hposted : aerase (toString item0.id)
        (aset (toString item0.id)
          ⟨item0.text, item0.user_alias, pt, [], Option.none⟩ s.posted) = s.posted :=
      aerase_aset_of_not_mem _ hkey0notmem
    refine ⟨rfl, ?_, ?_, ?_, ?_, ?_⟩
    · simp only [List.length_nil, Nat.add_zero]
      rw [aset_of_not_mem item0 hk0notmem_erase]
      rw [List.length_append, length_aerase_of_mem hk0mem]
      have : 1 ≤ s.pending.length := by
        rcases List.mem_map.mp hk0mem with ⟨q, hq, _⟩
        exact List.length_pos.mpr (fun hnil => by rw [hnil] at hq; cases hq)
      simp
      omega
    · intro k _
      by_cases hkk : k = k0
      · subst hkk
        rw [alookup_aset_self, hitem0]
      · rw [alookup_aset_ne item0 _ hkk, alookup_aerase_ne _ hkk]
    · intro k hk
      cases hk
    · intro k hk
      cases hk
    · intro pk _
      rw [hposted]
  | cons k ks1t ih =>
    intro k0 ks2 s a hndsel hnd hmem hfresh hinj hok hfail
    have hkmem : (alookup k s.pending).isSome := hmem k (by simp)
    rcases Option.isSome_iff_exists.mp hkmem with ⟨item, hitem⟩
    have hpubk : (publish item.id).isSome :=
      hok k (List.mem_cons_self _ _) item hitem
    rcases Option.isSome_iff_exists.mp hpubk with ⟨mid, hmid⟩
    have hndtail : (ks1t ++ k0 :: ks2).Nodup := by
      rw [List.cons_append] at hndsel
      exact (List.nodup_cons.mp hndsel).2
    have hknotintail : k ∉ ks1t ++ k0 :: ks2 := by
      rw [List.cons_append] at hndsel
      exact (List.nodup_cons.mp hndsel).1
    have hkmemfst : k ∈ s.pending.map Prod.fst := mem_of_alookup_eq_some hitem
    -- the store after successfully posting the head item
    set key := toString item.id with hkeydef
    set temp : PostedConf := ⟨item.text, item.user_alias, pt, [], Option.none⟩ with htemp
    set done : PostedConf := ⟨item.text, item.user_alias, pt, [], some mid⟩ with hdone
    set s2 : Store := { s with
      pending := aerase k s.pending,
      posted := aset key done (aset key temp s.posted) } with hs2
    have hloop : ConfessionBot.batch_loop publish pt ((k :: ks1t) ++ k0 :: ks2) s a =
        ConfessionBot.batch_loop publish pt (ks1t ++ k0 :: ks2) s2 (a + 1) := by
      show ConfessionBot.batch_loop publish pt (k :: (ks1t ++ k0 :: ks2)) s a = _
      simp only [ConfessionBot.batch_loop, hitem, hmid]
      have hset := set_channel_message_id_eq
        { s with pending := aerase k s.pending, posted := aset key temp s.posted }
        key temp mid (by simpa using alookup_aset_self key temp s.posted)
      simp only at hset
      rw [hset]
    -- facts about s2
    have hnd2 : (s2.pending.map Prod.fst).Nodup := nodup_map_fst_aerase k hnd
    have hsub2 : ∀ k' item', alookup k' s2.pending = some item' →
        alookup k' s.pending = some item' ∧ k' ≠ k := by
      intro k' item' h
      by_cases hkk : k' = k
      · subst hkk
        rw [show s2.pending = aerase k' s.pending from rfl,
          alookup_aerase_self k' hnd] at h
        cases h
      · exact ⟨by rw [show s2.pending = aerase k s.pending from rfl,
          alookup_aerase_ne _ hkk] at h; exact h, hkk⟩
    have hid_ne : ∀ k' item', alookup k' s.pending = some item' → k' ≠ k →
        toString item'.id ≠ key := by
      intro k' item' h hkk habs
      exact hkk (hinj k' k item' item h hitem habs)
    have hmem2 : ∀ k' ∈ ks1t ++ k0 :: ks2, (alookup k' s2.pending).isSome := by
      intro k' hk'
      have hne : k' ≠ k := fun h => hknotintail (h ▸ hk')
      rw [show s2.pending = aerase k s.pending from rfl, alookup_aerase_ne _ hne]
      exact hmem k' (List.mem_cons_of_mem _ hk')
    have hfresh2 : ∀ k' item', alookup k' s2.pending = some item' →
        alookup (toString item'.id) s2.posted = Option.none := by
      intro k' item' h
      rcases hsub2 k' item' h with ⟨hS, hkk⟩
      have hidne := hid_ne k' item' hS hkk
      rw [show s2.posted = aset key done (aset key temp s.posted) from rfl,
        alookup_aset_ne done _ hidne, alookup_aset_ne temp _ hidne]
      exact hfresh k' item' hS
    have hinj2 : ∀ ka kb ia ib, alookup ka s2.pending = some ia →
        alookup kb s2.pending = some ib → toString ia.id = toString ib.id → ka = kb := by
      intro ka kb ia ib ha hb hab
      exact hinj ka kb ia ib (hsub2 ka ia ha).1 (hsub2 kb ib hb).1 hab
    have hok2 : ∀ k' ∈ ks1t, ∀ item', alookup k' s2.pending = some item' →
        (publish item'.id).isSome := by
      intro k' hk' item' h
      exact hok k' (List.mem_cons_of_mem _ hk') item' (hsub2 k' item' h).1
    have hfail2 : ∀ item', alookup k0 s2.pending = some item' →
        publish item'.id = Option.none := by
      intro item' h
      exact hfail item' (hsub2 k0 item' h).1
    have IH := ih k0 ks2 s2 (a + 1) hndtail hnd2 hmem2 hfresh2 hinj2 hok2 hfail2
    rcases IH with ⟨IHa, IHlen, IHunch, IHnone, IHposted, IHpostother⟩
    rw [hloop]
    have hs2pendlen : s2.pending.length + 1 = s.pending.length := by
      rw [show s2.pending = aerase k s.pending from rfl, length_aerase_of_mem hkmemfst]
      have : 1 ≤ s.pending.length := by
        rcases List.mem_map.mp hkmemfst with ⟨q, hq, _⟩
        exact List.length_pos.mpr (fun hnil => by rw [hnil] at hq; cases hq)
      omega
    refine ⟨?_, ?_, ?_, ?_, ?_, ?_⟩
    · rw [IHa]
      simp [Nat.add_assoc, Nat.add_comm 1 ks1t.length]
    · rw [List.length_cons]
      omega
    · intro k' hk'
      have hk'tail : k' ∉ ks1t := fun h => hk' (List.mem_cons_of_mem _ h)
      have hk'ne : k' ≠ k := fun h => hk' (h ▸ List.mem_cons_self _ _)
      rw [IHunch k' hk'tail,
        show s2.pending = aerase k s.pending from rfl, alookup_aerase_ne _ hk'ne]
    · intro k' hk'
      have hknot1t : k ∉ ks1t := fun h => hknotintail (List.mem_append_left _ h)
      rcases List.mem_cons.mp hk' with h | h
      · subst h
        rw [IHunch k' hknot1t,
          show s2.pending = aerase k' s.pending from rfl, alookup_aerase_self k' hnd]
      · exact IHnone k' h
    · intro k' hk' item' hitem'
      have hknot1t : k ∉ ks1t := fun h => hknotintail (List.mem_append_left _ h)
      rcases List.mem_cons.mp hk' with h | h
      · subst h
        have hitemeq : item' = item := by
          rw [hitem] at hitem'
          exact (Option.some.injEq _ _ ▸ hitem').symm
        subst hitemeq
        have hcond : ∀ k'' ∈ ks1t, ∀ item'', alookup k'' s2.pending = some item'' →
            key ≠ toString item''.id := by
          intro k'' hk'' item'' h2
          rcases hsub2 k'' item'' h2 with ⟨hS, hkk⟩
          exact (hid_ne k'' item'' hS hkk).symm
        rw [IHpostother key hcond,
          show s2.posted = aset key done (aset key temp s.posted) from rfl,
          alookup_aset_self, hmid]
      · have hk'ne : k' ≠ k := fun hh => hknot1t (hh ▸ h)
        have h2 : alookup k' s2.pending = some item' := by
          rw [show s2.pending = aerase k s.pending from rfl, alookup_aerase_ne _ hk'ne]
          exact hitem'
        exact IHposted k' h item' h2
    · intro pk hpk
      have hpkkey : pk ≠ key :=
        hpk k (List.mem_cons_self _ _) item hitem
      have hcond : ∀ k'' ∈ ks1t, ∀ item'', alookup k'' s2.pending = some item'' →
          pk ≠ toString item''.id := by
        intro k'' hk'' item'' h2
        exact hpk k'' (List.mem_cons_of_mem _ hk'') item'' (hsub2 k'' item'' h2).1
      rw [IHpostother pk hcond,
        show s2.posted = aset key done (aset key temp s.posted) from rfl,
        alookup_aset_ne done _ hpkkey, alookup_aset_ne temp _ hpkkey]

theorem alookup_mem {κ α : Type} [DecidableEq κ] {k : κ} {v : α}
    {l : List (κ × α)} (h : alookup k l = some v) : (k, v) ∈ l := by
  induction l with
  | nil => cases h
  | cons p t ih =>
    obtain ⟨p1, p2⟩ := p
    by_cases hp : p1 = k
    · rw [alookup_cons, if_pos hp] at h
      injection h with h2
      subst hp
      subst h2
      exact List.mem_cons_self _ _
    · rw [alookup_cons, if_neg hp] at h
      exact List.mem_cons_of_mem _ (ih h)

/-- C2 (amended): in `confession_bot.py`, batch approval of a selection in
which the publishes before key `k0` succeed and `k0`'s publish fails
stops at `k0`: the earlier items are Posted with their message ids and
leave pending, the failed item is re-inserted pending with no posted
trace, the untried keys after `k0` are never touched, and the report
counts `approved = k-1` and `remaining = originalPendingCount - (k-1)`
(this handler's report has no failed count; `main_confession_bot.py`'s
batch instead continues past failures — see the counterexample). -/
theorem c2_batch_stops_on_first_publish_failure (s : Store) (batch_size : Nat)
    (publish : Int → Option Int) (pt : String)
    (ks1 : List String) (k0 : String) (ks2 : List String)
    (hsel : (List.insertionSort (fun x y => pendingKeyNum x ≤ pendingKeyNum y)
        (s.pending.map Prod.fst)).take batch_size = ks1 ++ k0 :: ks2)
    (hndsel : (ks1 ++ k0 :: ks2).Nodup)
    (hnd : (s.pending.map Prod.fst).Nodup)
    (hmem : ∀ k ∈ ks1 ++ k0 :: ks2, (alookup k s.pending).isSome)
    (hfreshL : ∀ p ∈ s.pending, alookup (toString p.2.id) s.posted = Option.none)
    (hidnd : (s.pending.map (fun p => toString p.2.id)).Nodup)
    (hokL : ∀ p ∈ s.pending, p.1 ∈ ks1 → (publish p.2.id).isSome)
    (hfailL : ∀ p ∈ s.pending, p.1 = k0 → publish p.2.id = Option.none) :
    (ConfessionBot.approve_batch_callback s batch_size publish pt).approved = ks1.length ∧
    (ConfessionBot.approve_batch_callback s batch_size publish pt).remaining =
      s.pending.length - ks1.length ∧
    (∀ k ∈ ks1, ∀ item, alookup k s.pending = some item →
      alookup k (ConfessionBot.approve_batch_callback s batch_size publish pt).store.pending =
        Option.none ∧
      alookup (toString item.id)
        (ConfessionBot.approve_batch_callback s batch_size publish pt).store.posted =
        some ⟨item.text, item.user_alias, pt, [], publish item.id⟩ ∧
      (publish item.id).isSome) ∧
    (alookup k0 (ConfessionBot.approve_batch_callback s batch_size publish pt).store.pending =
      alookup k0 s.pending) ∧
    (∀ item0, alookup k0 s.pending = some item0 →
      alookup (toString item0.id)
        (ConfessionBot.approve_batch_callback s batch_size publish pt).store.posted =
        Option.none) ∧
    (∀ k ∈ ks2,
      alookup k (ConfessionBot.approve_batch_callback s batch_size publish pt).store.pending =
        alookup k s.pending) := by
  -- lookup-level forms of the list-level hypotheses
  have hfresh : ∀ k item, alookup k s.pending = some item →
      alookup (toString item.id) s.posted = Option.none :=
    fun k item h => hfreshL (k, item) (alookup_mem h)
  have hinj : ∀ k k' item item', alookup k s.pending = some item →
      alookup k' s.pending = some item' → toString item.id = toString item'.id →
      k = k' := by
    intro k k' item item' h h' hid
    have := List.inj_on_of_nodup_map hidnd (alookup_mem h) (alookup_mem h') hid
    exact congrArg Prod.fst this
  have hok : ∀ k ∈ ks1, ∀ item, alookup k s.pending = some item →
      (publish item.id).isSome :=
    fun k hk item h => hokL (k, item) (alookup_mem h) hk
  have hfail : ∀ item, alookup k0 s.pending = some item →
      publish item.id = Option.none :=
    fun item h => hfailL (k0, item) (alookup_mem h) rfl
  have hk0mem : k0 ∈ s.pending.map Prod.fst :=
    mem_of_alookup_eq_some (Option.isSome_iff_exists.mp (hmem k0 (by simp))).choose_spec
  have hempty : s.pending.isEmpty = false := by
    cases hp : s.pending with
    | nil => rw [hp] at hk0mem; cases hk0mem
    | cons q t => rfl
  have hcall : ConfessionBot.approve_batch_callback s batch_size publish pt =
      ⟨(ConfessionBot.batch_loop publish pt (ks1 ++ k0 :: ks2) s 0).1,
       (ConfessionBot.batch_loop publish pt (ks1 ++ k0 :: ks2) s 0).2,
       (ConfessionBot.batch_loop publish pt (ks1 ++ k0 :: ks2) s 0).1.pending.length,
       false⟩ := by
    unfold ConfessionBot.approve_batch_callback
    rw [hempty]
    simp only [Bool.false_eq_true, if_false, hsel]
  have hspec := batch_loop_spec publish pt ks1 k0 ks2 s 0 hndsel hnd hmem hfresh hinj hok hfail
  rcases hspec with ⟨ha, hlen, hunch, hnone, hposted, hpostother⟩
  have hdisj : List.Disjoint ks1 (k0 :: ks2) := List.disjoint_of_nodup_append hndsel
  have hk0not1 : k0 ∉ ks1 := fun h => hdisj h (List.mem_cons_self _ _)
  rw [hcall]
  refine ⟨by simpa using ha, ?_, ?_, ?_, ?_, ?_⟩
  · show (ConfessionBot.batch_loop publish pt (ks1 ++ k0 :: ks2) s 0).1.pending.length =
      s.pending.length - ks1.length
    omega
  · intro k hk item hitem
    exact ⟨hnone k hk, hposted k hk item hitem, hok k hk item hitem⟩
  · exact hunch k0 hk0not1
  · intro item0 hitem0
    have hpk : ∀ k ∈ ks1, ∀ item, alookup k s.pending = some item →
        toString item0.id ≠ toString item.id := by
      intro k hk item hitem habs
      exact hk0not1 ((hinj k0 k item0 item hitem0 hitem habs).symm ▸ hk)
    show alookup (toString item0.id)
      (ConfessionBot.batch_loop publish pt (ks1 ++ k0 :: ks2) s 0).1.posted = Option.none
    rw [hpostother (toString item0.id) hpk]
    exact hfresh k0 item0 hitem0
  · intro k hk
    have hknot1 : k ∉ ks1 := fun h => hdisj h (List.mem_cons_of_mem _ hk)
    exact hunch k hknot1

/-- C2 counterexample: with two pending items and a publisher that fails
on the first confession but succeeds on the second,
`main_confession_bot.py`'s batch handler does not stop at the failure: it
rolls the first item back, continues, posts the second item with its
message id, and reports approved 1 and failed 1 — so the item after the
failed one does not remain Pending, contradicting the claim. -/
theorem c2_main_batch_continues_past_failure :
    (MainConfessionBot.approve_batch_callback
      ⟨3, [("p1", ⟨1, "a", 11, "Anonymous"⟩), ("p2", ⟨2, "b", 22, "Anonymous"⟩)], [], []⟩
      2 (fun i => if i = 2 then some 77 else Option.none) "t").approved = 1 ∧
    (MainConfessionBot.approve_batch_callback
      ⟨3, [("p1", ⟨1, "a", 11, "Anonymous"⟩), ("p2", ⟨2, "b", 22, "Anonymous"⟩)], [], []⟩
      2 (fun i => if i = 2 then some 77 else Option.none) "t").failed = 1 ∧
    alookup "2" (MainConfessionBot.approve_batch_callback
      ⟨3, [("p1", ⟨1, "a", 11, "Anonymous"⟩), ("p2", ⟨2, "b", 22, "Anonymous"⟩)], [], []⟩
      2 (fun i => if i = 2 then some 77 else Option.none) "t").store.posted =
      some ⟨"b", "Anonymous", "t", [], some 77⟩ ∧
    alookup "p2" (MainConfessionBot.approve_batch_callback
      ⟨3, [("p1", ⟨1, "a", 11, "Anonymous"⟩), ("p2", ⟨2, "b", 22, "Anonymous"⟩)], [], []⟩
      2 (fun i => if i = 2 then some 77 else Option.none) "t").store.pending =
      Option.none ∧
    alookup "p1" (MainConfessionBot.approve_batch_callback
      ⟨3, [("p1", ⟨1, "a", 11, "Anonymous"⟩), ("p2", ⟨2, "b", 22, "Anonymous"⟩)], [], []⟩
      2 (fun i => if i = 2 then some 77 else Option.none) "t").store.pending =
      some ⟨1, "a", 11, "Anonymous"⟩ := by
  exact ⟨rfl, rfl, rfl, rfl, rfl⟩

/-- C2 witness: the amended theorem applied to three pending items where
the first publish succeeds and the second fails: one approval, stop, two
items left pending. -/
theorem c2_batch_stops_on_first_publish_failure_witness :
    ((List.insertionSort (fun x y => pendingKeyNum x ≤ pendingKeyNum y)
        ((⟨4, [("p1", ⟨1, "a", 11, "A1"⟩), ("p2", ⟨2, "b", 22, "A2"⟩),
            ("p3", ⟨3, "c", 33, "A3"⟩)], [], []⟩ : Store).pending.map Prod.fst)).take 3 =
      ["p1"] ++ "p2" :: ["p3"]) ∧
    (ConfessionBot.approve_batch_callback
      ⟨4, [("p1", ⟨1, "a", 11, "A1"⟩), ("p2", ⟨2, "b", 22, "A2"⟩),
          ("p3", ⟨3, "c", 33, "A3"⟩)], [], []⟩
      3 (fun i => if i = 1 then some 10 else Option.none) "t").approved = (["p1"] : List String).length ∧
    (ConfessionBot.approve_batch_callback
      ⟨4, [("p1", ⟨1, "a", 11, "A1"⟩), ("p2", ⟨2, "b", 22, "A2"⟩),
          ("p3", ⟨3, "c", 33, "A3"⟩)], [], []⟩
      3 (fun i => if i = 1 then some 10 else Option.none) "t").remaining = 3 - 1 :=
  ⟨by decide,
   (c2_batch_stops_on_first_publish_failure
      ⟨4, [("p1", ⟨1, "a", 11, "A1"⟩), ("p2", ⟨2, "b", 22, "A2"⟩),
          ("p3", ⟨3, "c", 33, "A3"⟩)], [], []⟩
      3 (fun i => if i = 1 then some 10 else Option.none) "t"
      ["p1"] "p2" ["p3"]
      (by decide) (by decide) (by decide) (by decide) (by decide) (by decide)
      (by decide) (by decide)).1,
   (c2_batch_stops_on_first_publish_failure
      ⟨4, [("p1", ⟨1, "a", 11, "A1"⟩), ("p2", ⟨2, "b", 22, "A2"⟩),
          ("p3", ⟨3, "c", 33, "A3"⟩)], [], []⟩
      3 (fun i => if i = 1 then some 10 else Option.none) "t"
      ["p1"] "p2" ["p3"]
      (by decide) (by decide) (by decide) (by decide) (by decide) (by decide)
      (by decide) (by decide)).2.1⟩

/-!  Loading the snapshot: what `load_store` survives and what it does not. -/

/-- C7 (amended): `load_store` returns the freshly-initialized store and
never fails when the snapshot file is missing or its bytes fail JSON
decoding — the only two situations its exception handling covers.  A
snapshot that decodes but has an unexpected shape can still raise an
uncaught error (see the counterexample). -/
theorem c7_load_survives_missing_and_undecodable (file : Option (Except Unit PyVal))
    (h : ∀ j, file ≠ some (Except.ok j)) :
    load_store file = Except.ok initialStoreKvs := by
  match file with
  | Option.none => rfl
  | some (Except.error e) => rfl
  | some (Except.ok j) => exact absurd rfl (h j)

/-- C7 witness: the theorem applied to the missing-file case. -/
theorem c7_load_survives_missing_and_undecodable_witness :
    (∀ j, (Option.none : Option (Except Unit PyVal)) ≠ some (Except.ok j)) ∧
    load_store Option.none = Except.ok initialStoreKvs :=
  ⟨fun _j h => Option.noConfusion h,
   c7_load_survives_missing_and_undecodable Option.none (fun _j h => Option.noConfusion h)⟩

/-- C7 counterexample: the snapshot bytes decoding to the JSON document
binding "posted" to the number 3 make `load_store` raise an uncaught
`TypeError` (iterating an int), refuting "no snapshot content causes load
to raise an unhandled error".  A structurally-corrupt posted entry does
the same: `int` is not a container, so the repair pass's membership test
raises. -/
theorem c7_load_raises_on_decodable_corrupt_snapshot :
    load_store (some (Except.ok (.dictV [(.strK "posted", .intV 3)]))) =
      Except.error PyErr.typeError ∧
    load_store (some (Except.ok (.dictV [(.strK "posted",
        .dictV [(.strK "1", .intV 5)])]))) =
      Except.error PyErr.typeError := by
  exact ⟨rfl, rfl⟩

/-!  Idempotence of the load-time repair pass. -/

theorem except_bind_ok {α β : Type} (a : α) (f : α → Except PyErr β) :
    (Except.ok a >>= f) = f a := rfl

theorem except_bind_error {α β : Type} (e : PyErr) (f : α → Except PyErr β) :
    ((Except.error e : Except PyErr α) >>= f) = Except.error e := rfl

theorem except_pure_bind {α β : Type} (a : α) (f : α → Except PyErr β) :
    ((pure a : Except PyErr α) >>= f) = f a := rfl

theorem any_of_alookup_eq_some {κ α : Type} [DecidableEq κ] {k : κ} {v : α}
    {l : List (κ × α)} (h : alookup k l = some v) :
    l.any (fun p => decide (p.1 = k)) = true := by
  cases hany : l.any (fun p => decide (p.1 = k)) with
  | true => rfl
  | false => rw [alookup_eq_none_of_any_false hany] at h; cases h

theorem any_aset_self {κ α : Type} [DecidableEq κ] (k : κ) (v : α)
    (l : List (κ × α)) : (aset k v l).any (fun p => decide (p.1 = k)) = true :=
  any_of_alookup_eq_some (alookup_aset_self k v l)

theorem any_aset_ne {κ α : Type} [DecidableEq κ] {k k' : κ} (v : α)
    (l : List (κ × α)) (hne : k' ≠ k) :
    (aset k v l).any (fun p => decide (p.1 = k')) =
      l.any (fun p => decide (p.1 = k')) := by
  cases h : l.any (fun p => decide (p.1 = k')) with
  | true =>
    rcases exists_alookup_of_any h with ⟨w, hw⟩
    exact any_of_alookup_eq_some (by rw [alookup_aset_ne v l hne]; exact hw)
  | false =>
    cases h2 : (aset k v l).any (fun p => decide (p.1 = k')) with
    | false => rfl
    | true =>
      rcases exists_alookup_of_any h2 with ⟨w, hw⟩
      rw [alookup_aset_ne v l hne, alookup_eq_none_of_any_false h] at hw
      cases hw

theorem mem_aset_of_ne_key {κ α : Type} [DecidableEq κ] {k : κ} {v : α}
    {l : List (κ × α)} {p : κ × α} (hp : p ∈ aset k v l) (hne : p.1 ≠ k) :
    p ∈ l := by
  by_cases hany : l.any (fun q => decide (q.1 = k)) = true
  · unfold aset at hp
    rw [if_pos hany] at hp
    rcases List.mem_map.mp hp with ⟨q, hq, hqe⟩
    by_cases hqk : q.1 = k
    · rw [if_pos hqk] at hqe
      subst hqe
      exact absurd hqk hne
    · rw [if_neg hqk] at hqe
      subst hqe
      exact hq
  · unfold aset at hp
    rw [if_neg hany] at hp
    rcases List.mem_append.mp hp with h | h
    · exact h
    · rcases List.mem_singleton.mp h with rfl
      exact absurd rfl hne

theorem aset_pairs_same {κ α : Type} [DecidableEq κ] (k : κ) (v : α)
    (l : List (κ × α)) : ∀ p ∈ aset k v l, p.1 = k → p.2 = v := by
  intro p hp hpk
  by_cases hany : l.any (fun q => decide (q.1 = k)) = true
  · unfold aset at hp
    rw [if_pos hany] at hp
    rcases List.mem_map.mp hp with ⟨q, hq, hqe⟩
    by_cases hqk : q.1 = k
    · rw [if_pos hqk] at hqe
      subst hqe
      rfl
    · rw [if_neg hqk] at hqe
      subst hqe
      exact absurd hpk hqk
  · unfold aset at hp
    rw [if_neg hany] at hp
    rcases List.mem_append.mp hp with h | h
    · exact absurd (List.any_eq_true.mpr ⟨p, h, decide_eq_true hpk⟩) hany
    · rcases List.mem_singleton.mp h with rfl
      rfl

theorem aset_eq_self {κ α : Type} [DecidableEq κ] {k : κ} {v : α}
    {l : List (κ × α)} (hlook : alookup k l = some v)
    (hsame : ∀ p ∈ l, p.1 = k → p.2 = v) : aset k v l = l := by
  unfold aset
  rw [if_pos (any_of_alookup_eq_some hlook)]
  have : List.map (fun p => if p.1 = k then (p.1, v) else p) l = List.map id l := by
    apply List.map_congr_left
    intro p hp
    by_cases hpk : p.1 = k
    · rw [if_pos hpk]
      obtain ⟨p1, p2⟩ := p
      simp only at hpk
      simp only [id_eq]
      have h2 : p2 = v := hsame (p1, p2) hp hpk
      rw [h2]
    · rw [if_neg hpk]
      rfl
  rw [this, List.map_id]

/-- A reply value the repair loop's three backfills all skip: a dict with
the three keys present, or a string (a dict key or character being
iterated) or list containing the three key names, so that every `in` test
passes and no mutation is attempted. -/
def ReplyRepaired (r : PyVal) : Prop :=
  match r with
  | .dictV kvs =>
      kvs.any (fun kv => decide (kv.1 = PyKey.strK "reply_id")) = true ∧
      kvs.any (fun kv => decide (kv.1 = PyKey.strK "voters")) = true ∧
      kvs.any (fun kv => decide (kv.1 = PyKey.strK "user_alias")) = true
  | .strV s =>
      subseqChars "reply_id".data s.data = true ∧
      subseqChars "voters".data s.data = true ∧
      subseqChars "user_alias".data s.data = true
  | .listV xs =>
      xs.any (fun x => pyEqStr x "reply_id") = true ∧
      xs.any (fun x => pyEqStr x "voters") = true ∧
      xs.any (fun x => pyEqStr x "user_alias") = true
  | _ => False

theorem repairReply_of_repaired (cid : PyVal) (i : Nat) (r : PyVal)
    (h : ReplyRepaired r) : repairReply cid i r = .ok r := by
  match r with
  | .dictV kvs =>
    obtain ⟨h1, h2, h3⟩ := h
    unfold repairReply
    simp only [pyContainsStr, except_bind_ok, except_pure_bind, h1, h2, h3, if_true]
    rfl
  | .strV s =>
    obtain ⟨h1, h2, h3⟩ := h
    unfold repairReply
    simp only [pyContainsStr, except_bind_ok, except_pure_bind, h1, h2, h3, if_true]
    rfl
  | .listV xs =>
    obtain ⟨h1, h2, h3⟩ := h
    unfold repairReply
    simp only [pyContainsStr, except_bind_ok, except_pure_bind, h1, h2, h3, if_true]
    rfl

theorem repairReply_ok_main (cid : PyVal) (i : Nat) :
    ∀ (r r' : PyVal), repairReply cid i r = .ok r' →
    ReplyRepaired r' ∧ ((∀ kvs, r ≠ .dictV kvs) → r' = r) := by
  intro r r' h
  unfold repairReply at h
  match r with
  | .intV n =>
    simp only [pyContainsStr, except_bind_error] at h
    exact Except.noConfusion h
  | .boolV b =>
    simp only [pyContainsStr, except_bind_error] at h
    exact Except.noConfusion h
  | .noneV =>
    simp only [pyContainsStr, except_bind_error] at h
    exact Except.noConfusion h
  | .strV s =>
    simp only [pyContainsStr, except_bind_ok] at h
    cases h1 : subseqChars "reply_id".data s.data with
    | false =>
      rw [h1] at h
      simp only [Bool.false_eq_true, if_false] at h
      cases hint : pyInt cid with
      | error e =>
        simp only [hint, except_bind_error] at h
        exact Except.noConfusion h
      | ok c =>
        simp only [hint, except_bind_ok, pySetItem, except_bind_error] at h
        exact Except.noConfusion h
    | true =>
      rw [h1] at h
      simp only [if_true, except_pure_bind, except_bind_ok] at h
      cases h2 : subseqChars "voters".data s.data with
      | false =>
        rw [h2] at h
        simp only [Bool.false_eq_true, if_false, pySetItem, except_bind_error] at h
        exact Except.noConfusion h
      | true =>
        rw [h2] at h
        simp only [if_true, except_pure_bind, except_bind_ok] at h
        cases h3 : subseqChars "user_alias".data s.data with
        | false =>
          rw [h3] at h
          simp only [Bool.false_eq_true, if_false, pySetItem] at h
          exact Except.noConfusion h
        | true =>
          rw [h3] at h
          simp only [if_true] at h
          have h' : Except.ok (PyVal.strV s) = Except.ok r' := h
          injection h' with h2'
          subst h2'
          exact ⟨⟨h1, h2, h3⟩, fun _ => rfl⟩
  | .listV xs =>
    simp only [pyContainsStr, except_bind_ok] at h
    cases h1 : xs.any (fun x => pyEqStr x "reply_id") with
    | false =>
      rw [h1] at h
      simp only [Bool.false_eq_true, if_false] at h
      cases hint : pyInt cid with
      | error e =>
        simp only [hint, except_bind_error] at h
        exact Except.noConfusion h
      | ok c =>
        simp only [hint, except_bind_ok, pySetItem, except_bind_error] at h
        exact Except.noConfusion h
    | true =>
      rw [h1] at h
      simp only [if_true, except_pure_bind, except_bind_ok] at h
      cases h2 : xs.any (fun x => pyEqStr x "voters") with
      | false =>
        rw [h2] at h
        simp only [Bool.false_eq_true, if_false, pySetItem, except_bind_error] at h
        exact Except.noConfusion h
      | true =>
        rw [h2] at h
        simp only [if_true, except_pure_bind, except_bind_ok] at h
        cases h3 : xs.any (fun x => pyEqStr x "user_alias") with
        | false =>
          rw [h3] at h
          simp only [Bool.false_eq_true, if_false, pySetItem] at h
          exact Except.noConfusion h
        | true =>
          rw [h3] at h
          simp only [if_true] at h
          have h' : Except.ok (PyVal.listV xs) = Except.ok r' := h
          injection h' with h2'
          subst h2'
          exact ⟨⟨h1, h2, h3⟩, fun _ => rfl⟩
  | .dictV kvs =>
    refine ⟨?_, fun hne => absurd rfl (hne kvs)⟩
    simp only [pyContainsStr, except_bind_ok] at h
    have tail : ∀ (kvs1 : List (PyKey × PyVal)),
        kvs1.any (fun kv => decide (kv.1 = PyKey.strK "reply_id")) = true →
        (if (kvs1.any fun kv => decide (kv.1 = PyKey.strK "voters")) = true then
          (if (kvs1.any fun kv => decide (kv.1 = PyKey.strK "user_alias")) = true then
            (pure (PyVal.dictV kvs1) : Except PyErr PyVal)
          else pySetItem (.dictV kvs1) (.strV "user_alias") (.strV "Anonymous"))
        else
          Bind.bind (pySetItem (.dictV kvs1) (.strV "voters") (.dictV []))
            (fun y => Bind.bind (pyContainsStr y "user_alias")
              (fun hasAlias =>
                if hasAlias then pure y
                else pySetItem y (.strV "user_alias") (.strV "Anonymous")))) = .ok r' →
        ReplyRepaired r' := by
      intro kvs1 hrid htail
      cases h2 : kvs1.any (fun kv => decide (kv.1 = PyKey.strK "voters")) with
      | true =>
        rw [h2] at htail
        simp only [if_true] at htail
        cases h3 : kvs1.any (fun kv => decide (kv.1 = PyKey.strK "user_alias")) with
        | true =>
          rw [h3] at htail
          simp only [if_true] at htail
          have h' : Except.ok (PyVal.dictV kvs1) = Except.ok r' := htail
          injection h' with hh
          subst hh
          exact ⟨hrid, h2, h3⟩
        | false =>
          rw [h3] at htail
          simp only [Bool.false_eq_true, if_false, pySetItem, toKey] at htail
          have h' : Except.ok (PyVal.dictV (aset (PyKey.strK "user_alias")
              (PyVal.strV "Anonymous") kvs1)) = Except.ok r' := htail
          injection h' with hh
          subst hh
          refine ⟨?_, ?_, any_aset_self _ _ _⟩
          · rw [any_aset_ne _ _ (by decide : PyKey.strK "reply_id" ≠ PyKey.strK "user_alias")]
            exact hrid
          · rw [any_aset_ne _ _ (by decide : PyKey.strK "voters" ≠ PyKey.strK "user_alias")]
            exact h2
      | false =>
        rw [h2] at htail
        simp only [Bool.false_eq_true, if_false, pySetItem, toKey, except_bind_ok,
          pyContainsStr] at htail
        cases h3 : (aset (PyKey.strK "voters") (PyVal.dictV []) kvs1).any
            (fun kv => decide (kv.1 = PyKey.strK "user_alias")) with
        | true =>
          rw [h3] at htail
          simp only [if_true] at htail
          have h' : Except.ok (PyVal.dictV (aset (PyKey.strK "voters")
              (PyVal.dictV []) kvs1)) = Except.ok r' := htail
          injection h' with hh
          subst hh
          refine ⟨?_, any_aset_self _ _ _, h3⟩
          rw [any_aset_ne _ _ (by decide : PyKey.strK "reply_id" ≠ PyKey.strK "voters")]
          exact hrid
        | false =>
          rw [h3] at htail
          simp only [Bool.false_eq_true, if_false, pySetItem, toKey] at htail
          have h' : Except.ok (PyVal.dictV (aset (PyKey.strK "user_alias")
              (PyVal.strV "Anonymous")
              (aset (PyKey.strK "voters") (PyVal.dictV []) kvs1))) = Except.ok r' := htail
          injection h' with hh
          subst hh
          refine ⟨?_, ?_, any_aset_self _ _ _⟩
          · rw [any_aset_ne _ _ (by decide : PyKey.strK "reply_id" ≠ PyKey.strK "user_alias"),
              any_aset_ne _ _ (by decide : PyKey.strK "reply_id" ≠ PyKey.strK "voters")]
            exact hrid
          · rw [any_aset_ne _ _ (by decide : PyKey.strK "voters" ≠ PyKey.strK "user_alias")]
            exact any_aset_self _ _ _
    cases h1 : kvs.any (fun kv => decide (kv.1 = PyKey.strK "reply_id")) with
    | true =>
      rw [h1] at h
      simp only [if_true, except_pure_bind, except_bind_ok] at h
      exact tail kvs h1 h
    | false =>
      rw [h1] at h
      simp only [Bool.false_eq_true, if_false] at h
      cases hint : pyInt cid with
      | error e =>
        simp only [hint, except_bind_error] at h
        exact Except.noConfusion h
      | ok c =>
        simp only [hint, except_bind_ok, pySetItem, toKey, except_bind_ok] at h
        exact tail (aset (PyKey.strK "reply_id") (PyVal.intV (c * 1000 + i)) kvs)
          (any_aset_self _ _ _) h

theorem isPrefixOf_length_le : ∀ (t s : List Char), t.isPrefixOf s = true →
    t.length ≤ s.length := by
  intro t
  induction t with
  | nil => intro s _; simp
  | cons c t ih =>
    intro s h
    cases s with
    | nil => simp [List.isPrefixOf] at h
    | cons d s' =>
      simp only [List.isPrefixOf, Bool.and_eq_true] at h
      have := ih s' h.2
      simp only [List.length_cons]
      omega

theorem subseqChars_length_le {t s : List Char} (h : subseqChars t s = true) :
    t.length ≤ s.length := by
  unfold subseqChars at h
  rcases List.any_eq_true.mp h with ⟨i, _, hp⟩
  have h1 := isPrefixOf_length_le t (s.drop i) hp
  have h2 : (s.drop i).length ≤ s.length := by
    rw [List.length_drop]
    omega
  omega

theorem toVal_ne_dict (k : PyKey) : ∀ kvs, PyKey.toVal k ≠ PyVal.dictV kvs := by
  cases k <;> intro kvs h <;> exact PyVal.noConfusion h

theorem repairReply_str_char (cid : PyVal) (i : Nat) (c : Char) (r' : PyVal)
    (h : repairReply cid i (.strV (String.mk [c])) = .ok r') : False := by
  obtain ⟨hrep, hid⟩ := repairReply_ok_main cid i _ r' h
  have he : r' = .strV (String.mk [c]) := hid (fun kvs hk => PyVal.noConfusion hk)
  subst he
  obtain ⟨h1, _, _⟩ := hrep
  have hlen := subseqChars_length_le h1
  have h8 : ("reply_id".data).length = 8 := rfl
  have hc : ((String.mk [c]).data).length = 1 := rfl
  omega

theorem mapM_enumFrom_ok_mem (cid : PyVal) :
    ∀ (es : List PyVal) (es' : List PyVal) (n : Nat),
      (List.enumFrom n es).mapM (fun p => repairReply cid p.1 p.2) = .ok es' →
      ∀ e ∈ es, ∃ i r', repairReply cid i e = .ok r' := by
  intro es
  induction es with
  | nil =>
    intro es' n _ e he
    cases he
  | cons a t ih =>
    intro es' n h e he
    have hcons : List.enumFrom n (a :: t) = (n, a) :: List.enumFrom (n + 1) t := rfl
    rw [hcons, List.mapM_cons] at h
    cases ha : repairReply cid n a with
    | error e0 =>
      rw [ha] at h
      rw [except_bind_error] at h
      exact Except.noConfusion h
    | ok a' =>
      rw [ha] at h
      rw [except_bind_ok] at h
      cases hm : (List.enumFrom (n + 1) t).mapM (fun p => repairReply cid p.1 p.2) with
      | error e0 =>
        rw [hm, except_bind_error] at h
        exact Except.noConfusion h
      | ok bs =>
        rcases List.mem_cons.mp he with rfl | he'
        · exact ⟨n, a', ha⟩
        · exact ih bs (n + 1) hm e he'

theorem mapM_enumFrom_ok_repaired (cid : PyVal) :
    ∀ (es : List PyVal) (es' : List PyVal) (n : Nat),
      (List.enumFrom n es).mapM (fun p => repairReply cid p.1 p.2) = .ok es' →
      ∀ e ∈ es', ReplyRepaired e := by
  intro es
  induction es with
  | nil =>
    intro es' n h e he
    have h' : Except.ok ([] : List PyVal) = Except.ok es' := h
    injection h' with hh
    subst hh
    cases he
  | cons a t ih =>
    intro es' n h e he
    have hcons : List.enumFrom n (a :: t) = (n, a) :: List.enumFrom (n + 1) t := rfl
    rw [hcons, List.mapM_cons] at h
    cases ha : repairReply cid n a with
    | error e0 =>
      rw [ha, except_bind_error] at h
      exact Except.noConfusion h
    | ok a' =>
      rw [ha, except_bind_ok] at h
      cases hm : (List.enumFrom (n + 1) t).mapM (fun p => repairReply cid p.1 p.2) with
      | error e0 =>
        rw [hm, except_bind_error] at h
        exact Except.noConfusion h
      | ok bs =>
        rw [hm, except_bind_ok] at h
        have h' : Except.ok (a' :: bs) = Except.ok es' := h
        injection h' with hh
        subst hh
        rcases List.mem_cons.mp he with rfl | he'
        · exact (repairReply_ok_main cid n a e ha).1
        · exact ih bs (n + 1) hm e he'

theorem mapM_enumFrom_id (cid : PyVal) :
    ∀ (es : List PyVal) (n : Nat), (∀ e ∈ es, ReplyRepaired e) →
      (List.enumFrom n es).mapM (fun p => repairReply cid p.1 p.2) = .ok es := by
  intro es
  induction es with
  | nil =>
    intro n _
    rfl
  | cons a t ih =>
    intro n hall
    have hcons : List.enumFrom n (a :: t) = (n, a) :: List.enumFrom (n + 1) t := rfl
    rw [hcons, List.mapM_cons]
    have ha : repairReply cid n a = .ok a :=
      repairReply_of_repaired cid n a (hall a (List.mem_cons_self a t))
    rw [ha, except_bind_ok, ih (n + 1) (fun e he => hall e (List.mem_cons_of_mem a he)),
      except_bind_ok]
    rfl

/-- A `replies` value the repair loop leaves unchanged and re-traverses
without error: a list of repaired replies, a dict all of whose keys pass
the reply repair untouched, or the empty string. -/
def RepairedRepliesVal : PyVal → Prop
  | .listV es => ∀ e ∈ es, ReplyRepaired e
  | .dictV kvsR => ∀ kv ∈ kvsR, ReplyRepaired (PyKey.toVal kv.1)
  | .strV s => s.data = []
  | _ => False

/-- A confession value the per-confession repair maps to itself: a dict
with a `replies` entry (all duplicates of that key sharing one value,
as the write-back rewrites them all), that value re-traversable
unchanged, and a `user_alias` entry present. -/
def ConfRepaired : PyVal → Prop
  | .dictV kvs =>
      ∃ rv, alookup (PyKey.strK "replies") kvs = some rv ∧
        (∀ kv ∈ kvs, kv.1 = PyKey.strK "replies" → kv.2 = rv) ∧
        RepairedRepliesVal rv ∧
        kvs.any (fun kv => decide (kv.1 = PyKey.strK "user_alias")) = true
  | _ => False

theorem confRepaired_build (kvs1 : List (PyKey × PyVal)) (rv : PyVal)
    (hrep : RepairedRepliesVal rv) :
    ConfRepaired (PyVal.dictV (aset (PyKey.strK "user_alias") (PyVal.strV "Anonymous")
      (aset (PyKey.strK "replies") rv kvs1))) ∧
    ((aset (PyKey.strK "replies") rv kvs1).any
        (fun kv => decide (kv.1 = PyKey.strK "user_alias")) = true →
      ConfRepaired (PyVal.dictV (aset (PyKey.strK "replies") rv kvs1))) := by
  constructor
  · refine ⟨rv, ?_, ?_, hrep, any_aset_self _ _ _⟩
    · rw [alookup_aset_ne _ _ (by decide : PyKey.strK "replies" ≠ PyKey.strK "user_alias")]
      exact alookup_aset_self _ _ _
    · intro kv hkv hk
      have hne : kv.1 ≠ PyKey.strK "user_alias" := by
        rw [hk]; decide
      exact aset_pairs_same _ _ _ kv (mem_aset_of_ne_key hkv hne) hk
  · intro halias
    exact ⟨rv, alookup_aset_self _ _ _, aset_pairs_same _ _ _, hrep, halias⟩

theorem repairConf_of_repaired (cid : PyVal) (c : PyVal) (h : ConfRepaired c) :
    repairConf cid c = .ok c := by
  match c with
  | .dictV kvs =>
    obtain ⟨rv, hlook, hpairs, hrep, halias⟩ := h
    have hany := any_of_alookup_eq_some hlook
    have hsub : pySubscript (PyVal.dictV kvs) (PyVal.strV "replies") = .ok rv := by
      simp only [pySubscript, toKey, hlook]
    have hset : pySetItem (PyVal.dictV kvs) (PyVal.strV "replies") rv =
        .ok (PyVal.dictV kvs) := by
      simp only [pySetItem, toKey]
      rw [aset_eq_self hlook hpairs]
    unfold repairConf
    simp only [pyContainsStr, except_bind_ok, hany, if_true, except_pure_bind,
      hsub, except_bind_ok]
    cases rv with
    | listV es =>
      simp only [pyIter, except_bind_ok, mapM_enumFrom_id cid es 0 hrep,
        hset, halias, if_true]
      rfl
    | dictV kvsR =>
      have hall : ∀ e ∈ kvsR.map (fun kv => PyKey.toVal kv.1), ReplyRepaired e := by
        intro e he
        rcases List.mem_map.mp he with ⟨kv, hkv, rfl⟩
        exact hrep kv hkv
      simp only [pyIter, except_bind_ok, mapM_enumFrom_id cid _ 0 hall,
        hset, halias, if_true]
      rfl
    | strV s =>
      have hd : s.data = [] := hrep
      simp only [pyIter, except_bind_ok, hd, List.map_nil, List.enumFrom,
        hset, halias, if_true]
      rfl
    | intV n => exact (hrep : False).elim
    | boolV b => exact (hrep : False).elim
    | noneV => exact (hrep : False).elim

theorem repairConf_ok_conf (cid : PyVal) :
    ∀ (c c' : PyVal), repairConf cid c = .ok c' → ConfRepaired c' := by
  intro c c' h
  unfold repairConf at h
  have tail2 : ∀ (kvs1 : List (PyKey × PyVal)) (rv2 : PyVal),
      RepairedRepliesVal rv2 →
      (Bind.bind (pySetItem (PyVal.dictV kvs1) (PyVal.strV "replies") rv2)
        (fun conf2 => Bind.bind (pyContainsStr conf2 "user_alias") (fun hasAlias =>
          if hasAlias then pure conf2
          else pySetItem conf2 (.strV "user_alias") (.strV "Anonymous")))) = .ok c' →
      ConfRepaired c' := by
    intro kvs1 rv2 hrep2 ht
    simp only [pySetItem, toKey, except_bind_ok, pyContainsStr] at ht
    cases h3 : (aset (PyKey.strK "replies") rv2 kvs1).any
        (fun kv => decide (kv.1 = PyKey.strK "user_alias")) with
    | true =>
      rw [h3] at ht
      simp only [if_true] at ht
      have h' : Except.ok (PyVal.dictV (aset (PyKey.strK "replies") rv2 kvs1)) =
          Except.ok c' := ht
      injection h' with hh
      subst hh
      exact (confRepaired_build kvs1 rv2 hrep2).2 h3
    | false =>
      rw [h3] at ht
      simp only [Bool.false_eq_true, if_false, pySetItem, toKey] at ht
      have h' : Except.ok (PyVal.dictV (aset (PyKey.strK "user_alias")
          (PyVal.strV "Anonymous") (aset (PyKey.strK "replies") rv2 kvs1))) =
          Except.ok c' := ht
      injection h' with hh
      subst hh
      exact (confRepaired_build kvs1 rv2 hrep2).1
  have tail : ∀ (kvs1 : List (PyKey × PyVal)) (rv : PyVal),
      (Bind.bind (pyIter rv) (fun elems =>
        Bind.bind ((List.enumFrom 0 elems).mapM (fun p => repairReply cid p.1 p.2))
          (fun elems2 =>
            Bind.bind (pySetItem (PyVal.dictV kvs1) (PyVal.strV "replies")
                (match rv with | .listV _ => PyVal.listV elems2 | other => other))
              (fun conf2 =>
                Bind.bind (pyContainsStr conf2 "user_alias") (fun hasAlias =>
                  if hasAlias then pure conf2
                  else pySetItem conf2 (.strV "user_alias") (.strV "Anonymous")))))) =
        .ok c' →
      ConfRepaired c' := by
    intro kvs1 rv htail
    cases rv with
    | intV n =>
      simp only [pyIter, except_bind_error] at htail
      exact Except.noConfusion htail
    | boolV b =>
      simp only [pyIter, except_bind_error] at htail
      exact Except.noConfusion htail
    | noneV =>
      simp only [pyIter, except_bind_error] at htail
      exact Except.noConfusion htail
    | listV es =>
      simp only [pyIter, except_bind_ok] at htail
      cases hm : (List.enumFrom 0 es).mapM (fun p => repairReply cid p.1 p.2) with
      | error e0 =>
        rw [hm, except_bind_error] at htail
        exact Except.noConfusion htail
      | ok es2 =>
        rw [hm] at htail
        simp only [except_bind_ok] at htail
        exact tail2 kvs1 (PyVal.listV es2)
          (mapM_enumFrom_ok_repaired cid es es2 0 hm) htail
    | dictV kvsR =>
      simp only [pyIter, except_bind_ok] at htail
      cases hm : (List.enumFrom 0 (kvsR.map (fun kv => PyKey.toVal kv.1))).mapM
          (fun p => repairReply cid p.1 p.2) with
      | error e0 =>
        rw [hm, except_bind_error] at htail
        exact Except.noConfusion htail
      | ok es2 =>
        rw [hm] at htail
        simp only [except_bind_ok] at htail
        have hrepD : RepairedRepliesVal (PyVal.dictV kvsR) := by
          intro kv hkv
          obtain ⟨i, r', hir⟩ := mapM_enumFrom_ok_mem cid _ es2 0 hm
            (PyKey.toVal kv.1) (List.mem_map_of_mem _ hkv)
          obtain ⟨hrep', hid⟩ := repairReply_ok_main cid i _ r' hir
          rw [hid (toVal_ne_dict kv.1)] at hrep'
          exact hrep'
        exact tail2 kvs1 (PyVal.dictV kvsR) hrepD htail
    | strV s =>
      cases hd : s.data with
      | nil =>
        simp only [pyIter, hd, List.map_nil, List.enumFrom, except_bind_ok] at htail
        exact tail2 kvs1 (PyVal.strV s) hd htail
      | cons c0 cs =>
        simp only [pyIter, hd, List.map_cons, except_bind_ok] at htail
        cases hm : (List.enumFrom 0 (PyVal.strV (String.mk [c0]) ::
            cs.map (fun ch => PyVal.strV (String.mk [ch])))).mapM
            (fun p => repairReply cid p.1 p.2) with
        | error e0 =>
          rw [hm, except_bind_error] at htail
          exact Except.noConfusion htail
        | ok es2 =>
          obtain ⟨i, r', hir⟩ := mapM_enumFrom_ok_mem cid _ es2 0 hm
            (PyVal.strV (String.mk [c0])) (List.mem_cons_self _ _)
          exact (repairReply_str_char cid i c0 r' hir).elim
  match c with
  | .intV n =>
    simp only [pyContainsStr, except_bind_error] at h
    exact Except.noConfusion h
  | .boolV b =>
    simp only [pyContainsStr, except_bind_error] at h
    exact Except.noConfusion h
  | .noneV =>
    simp only [pyContainsStr, except_bind_error] at h
    exact Except.noConfusion h
  | .strV s =>
    simp only [pyContainsStr, except_bind_ok] at h
    cases h1 : subseqChars "replies".data s.data with
    | true =>
      rw [h1] at h
      have hsub : pySubscript (PyVal.strV s) (PyVal.strV "replies") =
          .error .typeError := rfl
      simp only [if_true, except_pure_bind, hsub, except_bind_error] at h
      exact Except.noConfusion h
    | false =>
      rw [h1] at h
      have hset : pySetItem (PyVal.strV s) (PyVal.strV "replies") (PyVal.listV []) =
          .error .typeError := rfl
      simp only [Bool.false_eq_true, if_false, hset, except_bind_error] at h
      exact Except.noConfusion h
  | .listV xs =>
    simp only [pyContainsStr, except_bind_ok] at h
    cases h1 : xs.any (fun x => pyEqStr x "replies") with
    | true =>
      rw [h1] at h
      have hsub : pySubscript (PyVal.listV xs) (PyVal.strV "replies") =
          .error .typeError := rfl
      simp only [if_true, except_pure_bind, hsub, except_bind_error] at h
      exact Except.noConfusion h
    | false =>
      rw [h1] at h
      have hset : pySetItem (PyVal.listV xs) (PyVal.strV "replies") (PyVal.listV []) =
          .error .typeError := rfl
      simp only [Bool.false_eq_true, if_false, hset, except_bind_error] at h
      exact Except.noConfusion h
  | .dictV kvs =>
    simp only [pyContainsStr, except_bind_ok] at h
    cases h1 : kvs.any (fun kv => decide (kv.1 = PyKey.strK "replies")) with
    | true =>
      rw [h1] at h
      obtain ⟨rv, hrv⟩ := exists_alookup_of_any h1
      have hsub : pySubscript (PyVal.dictV kvs) (PyVal.strV "replies") = .ok rv := by
        simp only [pySubscript, toKey, hrv]
      simp only [if_true, except_pure_bind, hsub, except_bind_ok] at h
      exact tail kvs rv h
    | false =>
      rw [h1] at h
      simp only [Bool.false_eq_true, if_false, pySetItem, toKey, except_bind_ok] at h
      have hsub : pySubscript
          (PyVal.dictV (aset (PyKey.strK "replies") (PyVal.listV []) kvs))
          (PyVal.strV "replies") = .ok (PyVal.listV []) := by
        simp only [pySubscript, toKey, alookup_aset_self]
      simp only [hsub, except_bind_ok] at h
      exact tail (aset (PyKey.strK "replies") (PyVal.listV []) kvs) (PyVal.listV []) h

/-- One iteration of the non-dict branch of the repair pass: subscript,
repair, write back. -/
def repairStep (cur k : PyVal) : Except PyErr PyVal := do
  let conf ← pySubscript cur k
  let conf' ← repairConf k conf
  pySetItem cur k conf'

theorem subscript_listV_mem {ys : List PyVal} {k v : PyVal}
    (h : pySubscript (.listV ys) k = .ok v) : v ∈ ys := by
  match k with
  | .intV i =>
    simp only [pySubscript] at h
    split at h
    all_goals split at h
    all_goals first
      | exact Except.noConfusion h
      | (injection h with hh; exact hh ▸ List.get_mem ys _ _)
  | .strV s => exact Except.noConfusion h
  | .listV xs => exact Except.noConfusion h
  | .dictV kvs => exact Except.noConfusion h
  | .boolV b => exact Except.noConfusion h
  | .noneV => exact Except.noConfusion h

theorem repairStep_listV_ok {ys : List PyVal} {k cur' : PyVal}
    (h : repairStep (.listV ys) k = .ok cur') :
    (∃ i : Int, k = .intV i) ∧ ∃ ys', cur' = .listV ys' := by
  match k with
  | .intV i =>
    refine ⟨⟨i, rfl⟩, ?_⟩
    unfold repairStep at h
    cases hs : pySubscript (PyVal.listV ys) (PyVal.intV i) with
    | error e =>
      rw [hs, except_bind_error] at h
      exact Except.noConfusion h
    | ok conf =>
      rw [hs, except_bind_ok] at h
      cases hc : repairConf (PyVal.intV i) conf with
      | error e =>
        rw [hc, except_bind_error] at h
        exact Except.noConfusion h
      | ok conf' =>
        rw [hc, except_bind_ok] at h
        simp only [pySetItem] at h
        split at h
        all_goals split at h
        all_goals first
          | exact Except.noConfusion h
          | (injection h with hh; exact ⟨_, hh.symm⟩)
  | .strV s =>
    unfold repairStep at h
    exact Except.noConfusion h
  | .listV xs =>
    unfold repairStep at h
    exact Except.noConfusion h
  | .dictV kvs =>
    unfold repairStep at h
    exact Except.noConfusion h
  | .boolV b =>
    unfold repairStep at h
    exact Except.noConfusion h
  | .noneV =>
    unfold repairStep at h
    exact Except.noConfusion h

theorem repair_fold_listV : ∀ (ks ys : List PyVal) (r : PyVal),
    ks.foldlM repairStep (PyVal.listV ys) = .ok r →
    ∀ k ∈ ks, ∃ i : Int, k = PyVal.intV i := by
  intro ks
  induction ks with
  | nil =>
    intro ys r _ k hk
    cases hk
  | cons a t ih =>
    intro ys r h k hk
    have hcons : (a :: t).foldlM repairStep (PyVal.listV ys) =
        Bind.bind (repairStep (PyVal.listV ys) a)
          (fun b => t.foldlM repairStep b) := rfl
    rw [hcons] at h
    cases hs : repairStep (PyVal.listV ys) a with
    | error e =>
      rw [hs, except_bind_error] at h
      exact Except.noConfusion h
    | ok cur' =>
      rw [hs, except_bind_ok] at h
      obtain ⟨hka, ys', rfl⟩ := repairStep_listV_ok hs
      rcases List.mem_cons.mp hk with rfl | hk'
      · exact hka
      · exact ih ys' r h k hk'

theorem repair_listV_cons_fails (x : PyVal) (xs : List PyVal) (r : PyVal)
    (h : repairPostedVal (.listV (x :: xs)) = .ok r) : False := by
  unfold repairPostedVal at h
  simp only [pyIter, except_bind_ok] at h
  have h2 : (x :: xs).foldlM repairStep (PyVal.listV (x :: xs)) = .ok r := h
  have hall := repair_fold_listV (x :: xs) (x :: xs) r h2
  obtain ⟨i0, rfl⟩ := hall x (List.mem_cons_self x xs)
  have hcons : (PyVal.intV i0 :: xs).foldlM repairStep
      (PyVal.listV (PyVal.intV i0 :: xs)) =
      Bind.bind (repairStep (PyVal.listV (PyVal.intV i0 :: xs)) (PyVal.intV i0))
        (fun b => xs.foldlM repairStep b) := rfl
  rw [hcons] at h2
  cases hs : repairStep (PyVal.listV (PyVal.intV i0 :: xs)) (PyVal.intV i0) with
  | error e =>
    rw [hs, except_bind_error] at h2
    exact Except.noConfusion h2
  | ok cur' =>
    unfold repairStep at hs
    cases hsub : pySubscript (PyVal.listV (PyVal.intV i0 :: xs)) (PyVal.intV i0) with
    | error e =>
      rw [hsub, except_bind_error] at hs
      exact Except.noConfusion hs
    | ok conf =>
      rw [hsub, except_bind_ok] at hs
      obtain ⟨n, rfl⟩ := hall conf (subscript_listV_mem hsub)
      have hc : repairConf (PyVal.intV i0) (PyVal.intV n) =
          .error .typeError := rfl
      rw [hc, except_bind_error] at hs
      exact Except.noConfusion hs

theorem pairs_mapM_ok : ∀ (kvs kvs' : List (PyKey × PyVal)),
    kvs.mapM (fun kv => do
      let v' ← repairConf kv.1.toVal kv.2
      pure (kv.1, v')) = .ok kvs' →
    ∀ kv ∈ kvs', repairConf kv.1.toVal kv.2 = .ok kv.2 := by
  intro kvs
  induction kvs with
  | nil =>
    intro kvs' h kv hkv
    have h' : Except.ok ([] : List (PyKey × PyVal)) = Except.ok kvs' := h
    injection h' with hh
    subst hh
    cases hkv
  | cons a t ih =>
    intro kvs' h kv hkv
    simp only [List.mapM_cons] at h
    cases hc : repairConf a.1.toVal a.2 with
    | error e =>
      simp only [hc, except_bind_error] at h
      exact Except.noConfusion h
    | ok v' =>
      simp only [hc, except_bind_ok, except_pure_bind] at h
      cases hmt : t.mapM (fun kv => do
          let v' ← repairConf kv.1.toVal kv.2
          pure (kv.1, v')) with
      | error e =>
        rw [hmt, except_bind_error] at h
        exact Except.noConfusion h
      | ok bs =>
        rw [hmt, except_bind_ok] at h
        have h' : Except.ok ((a.1, v') :: bs) = Except.ok kvs' := h
        injection h' with hh
        subst hh
        rcases List.mem_cons.mp hkv with rfl | hkv'
        · exact repairConf_of_repaired _ _ (repairConf_ok_conf _ _ _ hc)
        · exact ih bs hmt kv hkv'

theorem pairs_mapM_id : ∀ (kvs : List (PyKey × PyVal)),
    (∀ kv ∈ kvs, repairConf kv.1.toVal kv.2 = .ok kv.2) →
    kvs.mapM (fun kv => do
      let v' ← repairConf kv.1.toVal kv.2
      pure (kv.1, v')) = .ok kvs := by
  intro kvs
  induction kvs with
  | nil =>
    intro _
    rfl
  | cons a t ih =>
    intro hall
    simp only [List.mapM_cons]
    rw [hall a (List.mem_cons_self a t)]
    simp only [except_bind_ok, except_pure_bind]
    rw [ih (fun kv hkv => hall kv (List.mem_cons_of_mem a hkv))]
    simp only [except_bind_ok]
    rfl

/-- C8: the load-time repair pass over `store["posted"]`
(`confession_bot.py:50-71`, identical in `main_confession_bot.py:56-72`) is
idempotent.  For every value the snapshot can put under `"posted"`, if one
run of the repair pass succeeds and yields a repaired value, running the
pass again on that value succeeds and returns it unchanged: the backfills
of `replies`, `reply_id`, `voters` and `user_alias` all test before
writing, so a second pass finds every field present and writes nothing. -/
theorem c8_repair_pass_idempotent (p p' : PyVal)
    (h : repairPostedVal p = .ok p') : repairPostedVal p' = .ok p' := by
  match p with
  | .dictV kvs =>
    simp only [repairPostedVal] at h
    cases hm : kvs.mapM (fun kv => do
        let v' ← repairConf kv.1.toVal kv.2
        pure (kv.1, v')) with
    | error e =>
      rw [hm, except_bind_error] at h
      exact Except.noConfusion h
    | ok kvs2 =>
      rw [hm, except_bind_ok] at h
      have h' : Except.ok (PyVal.dictV kvs2) = Except.ok p' := h
      injection h' with hh
      subst hh
      simp only [repairPostedVal]
      rw [pairs_mapM_id kvs2 (pairs_mapM_ok kvs kvs2 hm), except_bind_ok]
      rfl
  | .listV [] =>
    have h' : Except.ok (PyVal.listV []) = Except.ok p' := h
    injection h' with hh
    subst hh
    rfl
  | .listV (x :: xs) => exact (repair_listV_cons_fails x xs p' h).elim
  | .strV s =>
    simp only [repairPostedVal] at h
    cases hd : s.data with
    | nil =>
      have hks : pyIter (PyVal.strV s) = .ok [] := by
        simp only [pyIter, hd, List.map_nil]
      rw [hks, except_bind_ok] at h
      have h' : Except.ok (PyVal.strV s) = Except.ok p' := h
      injection h' with hh
      subst hh
      simp only [repairPostedVal]
      rw [hks, except_bind_ok]
      rfl
    | cons c0 cs =>
      have hks : pyIter (PyVal.strV s) = .ok (PyVal.strV (String.mk [c0]) ::
          cs.map (fun ch => PyVal.strV (String.mk [ch]))) := by
        simp only [pyIter, hd, List.map_cons]
      rw [hks, except_bind_ok] at h
      have h2 : (PyVal.strV (String.mk [c0]) ::
          cs.map (fun ch => PyVal.strV (String.mk [ch]))).foldlM repairStep
          (PyVal.strV s) = .ok p' := h
      have hcons : (PyVal.strV (String.mk [c0]) ::
          cs.map (fun ch => PyVal.strV (String.mk [ch]))).foldlM repairStep
          (PyVal.strV s) =
          Bind.bind (repairStep (PyVal.strV s) (PyVal.strV (String.mk [c0])))
            (fun b => (cs.map (fun ch => PyVal.strV (String.mk [ch]))).foldlM
              repairStep b) := rfl
      rw [hcons] at h2
      have hstep : repairStep (PyVal.strV s) (PyVal.strV (String.mk [c0])) =
          .error .typeError := rfl
      rw [hstep, except_bind_error] at h2
      exact Except.noConfusion h2
  | .intV n =>
    unfold repairPostedVal at h
    simp only [pyIter, except_bind_error] at h
    exact Except.noConfusion h
  | .boolV b =>
    unfold repairPostedVal at h
    simp only [pyIter, except_bind_error] at h
    exact Except.noConfusion h
  | .noneV =>
    unfold repairPostedVal at h
    simp only [pyIter, except_bind_error] at h
    exact Except.noConfusion h

/-- Running the repair pass on a snapshot holding one posted confession
whose only reply lacks `reply_id`, `voters` and `user_alias` backfills all
three (identity `4 * 1000 + 0` from the conf key and position) plus the
confession's missing alias, and a second pass returns that value
unchanged. -/
theorem c8_repair_pass_idempotent_witness :
    repairPostedVal (PyVal.dictV [(.strK "4", .dictV [(.strK "text", .strV "x"),
        (.strK "replies", .listV [.dictV [(.strK "text", .strV "hi")]])])]) =
      .ok (PyVal.dictV [(.strK "4", .dictV [(.strK "text", .strV "x"),
        (.strK "replies", .listV [.dictV [(.strK "text", .strV "hi"),
          (.strK "reply_id", .intV 4000), (.strK "voters", .dictV []),
          (.strK "user_alias", .strV "Anonymous")]]),
        (.strK "user_alias", .strV "Anonymous")])]) ∧
    repairPostedVal (PyVal.dictV [(.strK "4", .dictV [(.strK "text", .strV "x"),
        (.strK "replies", .listV [.dictV [(.strK "text", .strV "hi"),
          (.strK "reply_id", .intV 4000), (.strK "voters", .dictV []),
          (.strK "user_alias", .strV "Anonymous")]]),
        (.strK "user_alias", .strV "Anonymous")])]) =
      .ok (PyVal.dictV [(.strK "4", .dictV [(.strK "text", .strV "x"),
        (.strK "replies", .listV [.dictV [(.strK "text", .strV "hi"),
          (.strK "reply_id", .intV 4000), (.strK "voters", .dictV []),
          (.strK "user_alias", .strV "Anonymous")]]),
        (.strK "user_alias", .strV "Anonymous")])]) :=
  ⟨rfl, c8_repair_pass_idempotent
    (PyVal.dictV [(.strK "4", .dictV [(.strK "text", .strV "x"),
      (.strK "replies", .listV [.dictV [(.strK "text", .strV "hi")]])])])
    (PyVal.dictV [(.strK "4", .dictV [(.strK "text", .strV "x"),
      (.strK "replies", .listV [.dictV [(.strK "text", .strV "hi"),
        (.strK "reply_id", .intV 4000), (.strK "voters", .dictV []),
        (.strK "user_alias", .strV "Anonymous")]]),
      (.strK "user_alias", .strV "Anonymous")])])
    rfl⟩
